import Mathlib

/-!
# Verification development for `lib/libbackscrub.cc`

A shallow embedding of the segmentation-mask pipeline of `libbackscrub.cc`
(model classification by file name, input normalization, session set-up and
tear-down, mask decoding and the ROI geometry) together with theorems about it.

Conventions of the embedding

* `float` / `double` data are IEEE-754 values (`FP`): NaN, the two infinities,
  negative zero and the finite rationals.  Arithmetic is exact rational
  arithmetic followed by round-to-nearest-even into the target format
  (`binary32` for `float`, `binary64` for `double`).
* `uint8_t` data are naturals below 256; the store conversion is an explicit
  `% 256`.
* C arrays are lists read with `getD` and written with `set`.
* `TFLITE_MINIMAL_CHECK` terminates the process; a failing check, a call through
  an absent interpreter and an out-of-range float-to-int conversion are the
  three `Fault`s of the `Except` monad in which the entry points run.
* TensorFlow Lite and OpenCV are external collaborators: their operations are
  the fields of `Env`.
-/

set_option maxRecDepth 8192

namespace Backscrub

/-! ## IEEE-754 data -/

/-- An IEEE-754 datum.  `fin 0` is positive zero, `nzero` is negative zero. -/
inductive FP where
  | nan : FP
  | inf (neg : Bool) : FP
  | nzero : FP
  | fin (q : ℚ) : FP
  deriving DecidableEq

namespace FP

/-- The C comparison `x < y` on floating-point data (false when either side is NaN). -/
def lt : FP → FP → Bool
  | nan, _ => false
  | _, nan => false
  | inf a, inf b => a && !b
  | inf a, nzero => a
  | inf a, fin _ => a
  | nzero, inf b => !b
  | fin _, inf b => !b
  | nzero, nzero => false
  | nzero, fin q => decide (0 < q)
  | fin q, nzero => decide (q < 0)
  | fin p, fin q => decide (p < q)

/-- The C comparison `x > y`. -/
def gt (x y : FP) : Bool := lt y x

/-- Position of a datum on the extended rational line, as a lexicographic pair:
the infinities are tagged 1 and 3, finite values 2 (NaN is sent to the bottom). -/
def key : FP → ℤ ×ₗ ℚ
  | nan => toLex (1, 0)
  | inf true => toLex (1, 0)
  | inf false => toLex (3, 0)
  | nzero => toLex (2, 0)
  | fin q => toLex (2, q)

/-- A zero of the given sign. -/
def zero (neg : Bool) : FP := if neg then nzero else fin 0

/-- A binary floating-point format: `prec` significand bits, `emin` the exponent
of the last bit of a subnormal, `emax` the largest exponent of the unit in the
last place. -/
structure Format where
  prec : ℕ
  emin : ℤ
  emax : ℤ

/-- The format of `float`. -/
def binary32 : Format := ⟨24, -149, 104⟩

/-- The format of `double`. -/
def binary64 : Format := ⟨53, -1074, 971⟩

/-- Round a rational to the nearest integer, ties to even. -/
def rne (t : ℚ) : ℤ :=
  if t - ⌊t⌋ < 1 / 2 then ⌊t⌋
  else if 1 / 2 < t - ⌊t⌋ then ⌊t⌋ + 1
  else if ⌊t⌋ % 2 = 0 then ⌊t⌋ else ⌊t⌋ + 1

/-- Exponent of the unit in the last place of the binade of `a > 0`. -/
def ulpExp (F : Format) (a : ℚ) : ℤ := max (Int.log 2 a - ((F.prec : ℤ) - 1)) F.emin

/-- Round a magnitude to the nearest multiple of its unit in the last place,
ties to even (exponent range unbounded above). -/
def roundMag (F : Format) (a : ℚ) : ℚ :=
  (rne (a / (2 : ℚ) ^ ulpExp F a) : ℚ) * (2 : ℚ) ^ ulpExp F a

/-- Round-to-nearest-even of a rational into format `F`: overflow gives an
infinity, a negative value that rounds to zero gives negative zero. -/
def round (F : Format) (q : ℚ) : FP :=
  if (2 : ℚ) ^ (F.emax + F.prec) ≤ roundMag F |q| then inf (decide (q < 0))
  else if q < 0 then (if roundMag F |q| = 0 then nzero else fin (-roundMag F |q|))
  else fin (roundMag F |q|)

/-- Conversion between formats (`(float)x` for a `double` `x`, and the exact
promotion of a `float` to `double`). -/
def cvt (F : Format) : FP → FP
  | fin q => round F q
  | x => x

/-- Conversion of an integer to format `F`. -/
def ofInt (F : Format) (n : ℤ) : FP := round F n

/-- Unary minus. -/
def neg : FP → FP
  | nan => nan
  | inf s => inf (!s)
  | nzero => fin 0
  | fin q => if q = 0 then nzero else fin (-q)

/-- Addition in format `F`. -/
def add (F : Format) : FP → FP → FP
  | nan, _ => nan
  | _, nan => nan
  | inf a, inf b => if a = b then inf a else nan
  | inf a, nzero => inf a
  | inf a, fin _ => inf a
  | nzero, inf b => inf b
  | fin _, inf b => inf b
  | nzero, nzero => nzero
  | nzero, fin q => round F q
  | fin p, nzero => round F p
  | fin p, fin q => round F (p + q)

/-- Subtraction in format `F`. -/
def sub (F : Format) (x y : FP) : FP := add F x (neg y)

/-- Division of finite values in format `F`. -/
def divFin (F : Format) (sx sy : Bool) (vx vy : ℚ) : FP :=
  if vy = 0 then (if vx = 0 then nan else inf (xor sx sy))
  else if vx = 0 then zero (xor sx sy)
  else round F (vx / vy)

/-- Division in format `F`. -/
def div (F : Format) : FP → FP → FP
  | nan, _ => nan
  | _, nan => nan
  | inf _, inf _ => nan
  | inf a, nzero => inf (!a)
  | inf a, fin q => inf (xor a (decide (q < 0)))
  | nzero, inf b => zero (!b)
  | fin p, inf b => zero (xor (decide (p < 0)) b)
  | nzero, nzero => nan
  | nzero, fin q => divFin F true (decide (q < 0)) 0 q
  | fin p, nzero => divFin F (decide (p < 0)) true p 0
  | fin p, fin q => divFin F (decide (p < 0)) (decide (q < 0)) p q

/-- Conversion to `int`: truncation toward zero; no result (undefined behaviour)
for NaN, infinities and values outside the range of `int`. -/
def toInt? : FP → Option ℤ
  | nan => none
  | inf _ => none
  | nzero => some 0
  | fin q =>
    if -(2 : ℤ) ^ 31 ≤ (if 0 ≤ q then ⌊q⌋ else ⌈q⌉) ∧ (if 0 ≤ q then ⌊q⌋ else ⌈q⌉) < (2 : ℤ) ^ 31
    then some (if 0 ≤ q then ⌊q⌋ else ⌈q⌉) else none

/-- The datum is a value of format `F`. -/
def IsValue (F : Format) : FP → Prop
  | fin q => ∃ m : ℤ, ∃ e : ℤ, |m| < (2 : ℤ) ^ F.prec ∧ F.emin ≤ e ∧ e ≤ F.emax ∧
      q = (m : ℚ) * (2 : ℚ) ^ e
  | _ => True

/-- The datum, read as an extended real number, exceeds the rational `r`
(never so for NaN). -/
def Exceeds : FP → ℚ → Prop
  | nan, _ => False
  | inf s, _ => s = false
  | nzero, r => r < 0
  | fin q, r => r < q

end FP

/-! ## Byte-write policy -/

/-- The byte stored by `out[n] = (val & 0xE0) | (out[n] >> 3)`. -/
def blend (val prev : Nat) : Nat := ((val &&& 0xE0) ||| (prev >>> 3)) % 256

/-! ## Model descriptor -/

/-- Counterpart of `enum class modeltype_t`. -/
inductive modeltype_t where
  | Unknown
  | BodyPix
  | DeepLab
  | GoogleMeetSegmentation
  | MLKitSelfie
  deriving DecidableEq, Repr

/-- The C library routine `strstr`: the suffix of `hay` that starts at the first
occurrence of `needle`, or `none` (the null pointer). -/
def strstr : List Char → List Char → Option (List Char)
  | [], needle => if needle.isPrefixOf [] then some [] else none
  | c :: cs, needle =>
    if needle.isPrefixOf (c :: cs) then some (c :: cs) else strstr cs needle

/-- Counterpart of `get_modeltype`: a non-null `strstr` result is true. -/
def get_modeltype (modelname : String) : modeltype_t :=
  if (strstr modelname.toList "body-pix".toList).isSome then
    modeltype_t.BodyPix
  else if (strstr modelname.toList "deeplab".toList).isSome then
    modeltype_t.DeepLab
  else if (strstr modelname.toList "segm_".toList).isSome then
    modeltype_t.GoogleMeetSegmentation
  else if (strstr modelname.toList "selfie".toList).isSome then
    modeltype_t.MLKitSelfie
  else
    modeltype_t.Unknown

/-- The deeplabv3 class names, `labels`. -/
def labels : List String :=
  ["background", "aeroplane", "bicycle", "bird", "boat", "bottle", "bus", "car", "cat",
   "chair", "cow", "dining table", "dog", "horse", "motorbike", "person", "potted plant",
   "sheep", "sofa", "train", "tv"]

/-- Number of classes, `cnum = labels.size()`. -/
def cnum : Nat := labels.length

/-- Label number of "person": `std::distance(begin, std::find(begin, end, "person"))`. -/
def pers : Nat := labels.indexOf "person"

/-- Counterpart of `struct normalization_t`. -/
structure normalization_t where
  scaling : FP
  offset : FP
  deriving DecidableEq

/-- Counterpart of `get_normalization`.  `1/127.5` and `1/255.0` are `double`
divisions whose result is converted to `float`; `-1` and `0` are `int`
constants converted to `float`. -/
def get_normalization : modeltype_t → normalization_t
  | modeltype_t.DeepLab =>
    { scaling := FP.cvt FP.binary32
        (FP.div FP.binary64 (FP.ofInt FP.binary64 1) (FP.round FP.binary64 (1275 / 10))),
      offset := FP.ofInt FP.binary32 (-1) }
  | modeltype_t.BodyPix =>
    { scaling := FP.cvt FP.binary32
        (FP.div FP.binary64 (FP.ofInt FP.binary64 1) (FP.round FP.binary64 255)),
      offset := FP.ofInt FP.binary32 0 }
  | modeltype_t.GoogleMeetSegmentation =>
    { scaling := FP.cvt FP.binary32
        (FP.div FP.binary64 (FP.ofInt FP.binary64 1) (FP.round FP.binary64 255)),
      offset := FP.ofInt FP.binary32 0 }
  | modeltype_t.MLKitSelfie =>
    { scaling := FP.cvt FP.binary32
        (FP.div FP.binary64 (FP.ofInt FP.binary64 1) (FP.round FP.binary64 255)),
      offset := FP.ofInt FP.binary32 0 }
  | modeltype_t.Unknown =>
    { scaling := FP.cvt FP.binary32
        (FP.div FP.binary64 (FP.ofInt FP.binary64 1) (FP.round FP.binary64 255)),
      offset := FP.ofInt FP.binary32 0 }

/-! ## Mask decoder -/

/-- The loop `for (n = 0; n < total; n++) out[n] = (val(n) & 0xE0) | (out[n] >> 3)`
over the byte buffer `out` (`total` is within the range of the `unsigned int`
counter). -/
def writeLoop (val : Nat → Nat) (total : Nat) (out : List Nat) : List Nat :=
  (List.range total).foldl (fun o n => o.set n (blend (val n) (o.getD n 0))) out

/-- One step of the DeepLab inner loop over the classes: the state is
`(maxval, maxpos)`. -/
def deeplab_step (tmp : List FP) (n : Nat) (st : FP × Nat) (i : Nat) : FP × Nat :=
  if FP.gt (tmp.getD (n * cnum + i) FP.nan) st.1 then (tmp.getD (n * cnum + i) FP.nan, i)
  else st

/-- The DeepLab inner loop for pixel `n`, started at `maxval = -10000`, `maxpos = 0`. -/
def deeplab_scan (tmp : List FP) (n : Nat) : FP × Nat :=
  (List.range cnum).foldl (deeplab_step tmp n) (FP.ofInt FP.binary32 (-10000), 0)

/-- The DeepLab decision `val = (maxpos == pers ? 0 : 255)`. -/
def deeplab_val (tmp : List FP) (n : Nat) : Nat :=
  if (deeplab_scan tmp n).2 = pers then 0 else 255

/-- The `double` literal `0.65`. -/
def threshold : FP := FP.round FP.binary64 (65 / 100)

/-- The BodyPix / MLKitSelfie decision `val = (tmp[n] > 0.65 ? 0 : 255)`; the
`float` operand is promoted to `double`. -/
def threshold_val (tmp : List FP) (n : Nat) : Nat :=
  if FP.gt (FP.cvt FP.binary64 (tmp.getD n FP.nan)) threshold then 0 else 255

/-- The GoogleMeetSegmentation decision on the two logits of a pixel:
`exp0 = expf(l0); exp1 = expf(l1); p0 = exp0/(exp0+exp1); p1 = exp1/(exp0+exp1);
val = (p0 < p1 ? 0 : 255)`, all in `float`.  `expf` is the C library routine. -/
def meet_decision (expf : FP → FP) (l0 l1 : FP) : Nat :=
  if FP.lt (FP.div FP.binary32 (expf l0) (FP.add FP.binary32 (expf l0) (expf l1)))
      (FP.div FP.binary32 (expf l1) (FP.add FP.binary32 (expf l0) (expf l1)))
  then 0 else 255

/-- The GoogleMeetSegmentation decision for pixel `n`. -/
def meet_val (expf : FP → FP) (tmp : List FP) (n : Nat) : Nat :=
  meet_decision expf (tmp.getD (2 * n) FP.nan) (tmp.getD (2 * n + 1) FP.nan)

/-- The `switch (ctx.modeltype)` of `calc_mask`: the new contents of the low-res
working mask `out`, given the output tensor `tmp` of `total` pixels. -/
def decode (expf : FP → FP) (t : modeltype_t) (tmp : List FP) (total : Nat)
    (out : List Nat) : List Nat :=
  match t with
  | modeltype_t.DeepLab => writeLoop (deeplab_val tmp) total out
  | modeltype_t.BodyPix => writeLoop (threshold_val tmp) total out
  | modeltype_t.MLKitSelfie => writeLoop (threshold_val tmp) total out
  | modeltype_t.GoogleMeetSegmentation => writeLoop (meet_val expf tmp) total out
  | modeltype_t.Unknown => out

/-- The first index holding a maximal score among the `cnum` scores of pixel
`n`: the argmax as `std::max_element` defines it. -/
def IsArgmax (tmp : List FP) (n i : Nat) : Prop :=
  i < cnum ∧
  (∀ j, j < cnum → ¬ FP.lt (tmp.getD (n * cnum + i) FP.nan) (tmp.getD (n * cnum + j) FP.nan)) ∧
  (∀ j, j < i → FP.lt (tmp.getD (n * cnum + j) FP.nan) (tmp.getD (n * cnum + i) FP.nan) = true)

/-! ## Session state -/

/-- The ways an entry point fails to return: a failed `TFLITE_MINIMAL_CHECK`
(the process exits), a call through a null interpreter pointer, and a
float-to-int conversion without a result. -/
inductive Fault where
  | check
  | nullInterpreter
  | conversion
  deriving DecidableEq, Repr

/-- A `cv::Mat` header with the elements its data pointer addresses (row-major,
channel-last).  `owner` tells whether the header holds a buffer handle (the
field `u` of `cv::Mat`): it does for a matrix that allocated its buffer, not
for a header over foreign memory nor for an empty matrix. -/
structure Mat (α : Type) where
  rows : ℤ
  cols : ℤ
  channels : ℤ
  data : List α
  owner : Bool

/-- The empty matrix (a default-constructed `cv::Mat`). -/
def Mat.empty {α : Type} : Mat α := ⟨0, 0, 0, [], false⟩

/-- Effect of `cv::Mat::deallocate`: the header gives up its buffer handle and
nothing else; `rows`, `cols` and the data pointer stay as they are (it is
`cv::Mat::release` that resets them). -/
def Mat.deallocate {α : Type} (m : Mat α) : Mat α := { m with owner := false }

/-- Result of `cv::Mat::total`: the number of pixels. -/
def Mat.total {α : Type} (m : Mat α) : Nat := (m.rows * m.cols).toNat

/-- A `cv::Rect`. -/
structure Rect where
  x : ℤ
  y : ℤ
  width : ℤ
  height : ℤ
  deriving DecidableEq, Repr

/-- A `cv::Size`. -/
structure Size where
  width : ℤ
  height : ℤ
  deriving DecidableEq, Repr

/-- Element type of a TensorFlow Lite tensor. -/
inductive TfLiteType where
  | kTfLiteFloat32
  | other
  deriving DecidableEq, Repr

/-- What the interpreter exposes of a tensor: its type, `dims->data` and the
`typed_tensor<float>` buffer (`none` for a null pointer). -/
structure Tensor where
  type : TfLiteType
  dims : List ℤ
  data : Option (List FP)

/-- A `tflite::Interpreter` as built for a model: its first input and output
tensors, whether `AllocateTensors` reports `kTfLiteOk`, and `Invoke` as a map from
the input buffer to the output buffer (`none` when it does not report
`kTfLiteOk`). -/
structure Interpreter where
  input : Tensor
  output : Tensor
  allocateOk : Bool
  invoke : List FP → Option (List FP)

/-- A loaded `tflite::FlatBufferModel`: the interpreter that `InterpreterBuilder`
makes of it with the operator resolver (`none` when it leaves a null pointer). -/
structure Model where
  build : Option Interpreter

/-- Counterpart of `struct backscrub_ctx_t`. -/
structure backscrub_ctx_t where
  model : Option Model
  interpreter : Option Interpreter
  modeltype : modeltype_t
  norm : normalization_t

/-- The external collaborators: model loading, the image operations of
`calc_mask`, and the C library `expf`. -/
structure Env where
  BuildFromFile : String → Option Model
  crop : Mat Nat → Rect → Mat Nat
  resize : Mat Nat → Size → Mat Nat
  cvtColor : Mat Nat → Mat Nat
  bilateralFilter : Mat Nat → Mat Nat
  convertTo : Mat Nat → FP → FP → List FP
  blur : Mat Nat → Size → Mat Nat
  expf : FP → FP

/-- Modelled from the spec: the fields of `calcinfo_t` (declared in
`libbackscrub.h`) that this file reads or writes.  `width` and `height` are the
configured frame dimensions, numbers of pixels that fit the `int` fields of a
`cv::Rect`; `mroi` is the rectangle of `mask` that the header
`info.mroi` views, `none` once it no longer views `mask`.  The callbacks only
notify the caller and are left out. -/
structure calcinfo_t where
  modelname : String
  threads : Nat
  width : Nat
  height : Nat
  debug : Bool
  raw : Mat Nat
  input : Mat FP
  output : Mat FP
  roidim : Rect
  mask : Mat Nat
  mroi : Option Rect
  ofinal : Mat Nat
  blur : Size
  ratio : FP
  backscrub_ctx : Option backscrub_ctx_t

/-- Modelled from the spec: `TFLITE_MINIMAL_CHECK(x)` (a macro defined outside
this file) ends the process when `x` is false. -/
def TFLITE_MINIMAL_CHECK (x : Bool) : Except Fault Unit :=
  if x then pure () else throw Fault.check

/-- Counterpart of `getTensorMat` for the tensor `t` of the interpreter. -/
def getTensorMat (t : Tensor) : Except Fault (Mat FP) := do
  TFLITE_MINIMAL_CHECK (decide (t.type = TfLiteType.kTfLiteFloat32))
  TFLITE_MINIMAL_CHECK (decide (t.dims.getD 0 0 = 1))
  match t.data with
  | none => throw Fault.check
  | some p_data => pure ⟨t.dims.getD 1 0, t.dims.getD 2 0, t.dims.getD 3 0, p_data, false⟩

/-- A conversion of a `float` to `int`. -/
def toInt (x : FP) : Except Fault ℤ :=
  match FP.toInt? x with
  | some n => pure n
  | none => throw Fault.conversion

/-- The aspect ratio `(float)info.input.cols/(float)info.input.rows`. -/
def input_ratio (cols rows : ℤ) : FP :=
  FP.div FP.binary32 (FP.ofInt FP.binary32 cols) (FP.ofInt FP.binary32 rows)

/-- The ROI of `init_tensorflow`:
`cv::Rect((info.width-info.height/info.ratio)/2,0,info.height/info.ratio,info.height)`,
computed in `float` and converted to the `int` fields of the rectangle. -/
def make_roidim (width height : Nat) (ratio : FP) : Except Fault Rect := do
  let x ← toInt (FP.div FP.binary32
    (FP.sub FP.binary32 (FP.ofInt FP.binary32 width)
      (FP.div FP.binary32 (FP.ofInt FP.binary32 height) ratio))
    (FP.ofInt FP.binary32 2))
  let w ← toInt (FP.div FP.binary32 (FP.ofInt FP.binary32 height) ratio)
  pure ⟨x, 0, w, height⟩

/-- The upsample target of the compositor:
`cv::Size(info.raw.rows/info.ratio,info.raw.rows)`. -/
def upsample_size (rawRows : ℤ) (ratio : FP) : Except Fault Size := do
  let w ← toInt (FP.div FP.binary32 (FP.ofInt FP.binary32 rawRows) ratio)
  pure ⟨w, rawRows⟩

/-- Counterpart of `drop_tensorflow`. -/
def drop_tensorflow (info : calcinfo_t) : calcinfo_t :=
  let info1 := { info with
    ofinal := info.ofinal.deallocate
    mask := info.mask.deallocate
    input := info.input.deallocate
    output := info.output.deallocate }
  match info1.backscrub_ctx with
  | some _ => { info1 with backscrub_ctx := none }
  | none => info1

/-- Counterpart of `init_tensorflow`.  `garbage` is the content of the
uninitialised buffer that `cv::Mat(rows, cols, CV_8UC1)` allocates for `ofinal`. -/
def init_tensorflow (env : Env) (garbage : List Nat) (info0 : calcinfo_t) :
    Except Fault (ℤ × calcinfo_t) := do
  let info := if info0.backscrub_ctx.isSome then drop_tensorflow info0 else info0
  match env.BuildFromFile info.modelname with
  | none => throw Fault.check
  | some model =>
    let modeltype := get_modeltype info.modelname
    let norm := get_normalization modeltype
    if modeltype = modeltype_t.Unknown then
      pure (0, { info with backscrub_ctx := some ⟨some model, none, modeltype, norm⟩ })
    else
      match model.build with
      | none => throw Fault.check
      | some interpreter =>
        TFLITE_MINIMAL_CHECK interpreter.allocateOk
        let input ← getTensorMat interpreter.input
        let output ← getTensorMat interpreter.output
        let ratio := input_ratio input.cols input.rows
        let roidim ← make_roidim info.width info.height ratio
        pure (1, { info with
          backscrub_ctx := some ⟨some model, some interpreter, modeltype, norm⟩
          input := input
          output := output
          ratio := ratio
          roidim := roidim
          mask := ⟨info.height, info.width, 1,
            List.replicate (info.height * info.width) 255, true⟩
          mroi := some roidim
          blur := ⟨5, 5⟩
          ofinal := ⟨output.rows, output.cols, 1, garbage, true⟩ })

/-- Overwrite the rectangle `r` of `mask` with the pixels of `src`
(`src` has the size of `r`). -/
def paste (mask : Mat Nat) (r : Rect) (src : Mat Nat) : Mat Nat :=
  { mask with data := (List.range mask.data.length).map (fun (k : Nat) =>
      if r.y ≤ (k : ℤ) / mask.cols ∧ (k : ℤ) / mask.cols < r.y + r.height ∧
         r.x ≤ (k : ℤ) % mask.cols ∧ (k : ℤ) % mask.cols < r.x + r.width
      then src.data.getD ((((k : ℤ) / mask.cols - r.y) * r.width +
        ((k : ℤ) % mask.cols - r.x)).toNat) 0
      else mask.data.getD k 0) }

/-- Counterpart of `calc_mask`. -/
def calc_mask (env : Env) (info : calcinfo_t) : Except Fault (ℤ × calcinfo_t) :=
  match info.backscrub_ctx with
  | none => throw Fault.check
  | some ctx =>
    let roi := env.crop info.raw info.roidim
    let in_u8_bgr := env.resize roi ⟨info.input.cols, info.input.rows⟩
    let in_u8_rgb := env.cvtColor in_u8_bgr
    let filtered := env.bilateralFilter in_u8_rgb
    let input := { info.input with
      data := env.convertTo filtered ctx.norm.scaling ctx.norm.offset }
    match ctx.interpreter with
    | none => throw Fault.nullInterpreter
    | some interpreter =>
      match interpreter.invoke input.data with
      | none => throw Fault.check
      | some result =>
        let output := { info.output with data := result }
        let ofinal := { info.ofinal with
          data := decode env.expf ctx.modeltype output.data output.total info.ofinal.data }
        match upsample_size info.raw.rows info.ratio with
        | Except.error e => throw e
        | Except.ok size =>
          let tmpbuf := env.resize ofinal size
          let blurred := env.blur tmpbuf info.blur
          match info.mroi with
          | some r =>
            if blurred.cols = r.width ∧ blurred.rows = r.height then
              pure (1, { info with input := input, output := output, ofinal := ofinal
                                   mask := paste info.mask r blurred })
            else
              pure (1, { info with input := input, output := output, ofinal := ofinal
                                   mroi := none })
          | none =>
            pure (1, { info with input := input, output := output, ofinal := ofinal })

/-- A session state before the first `init_tensorflow`: no context, and empty
(default-constructed) matrices; the configuration and the remaining fields are
as the caller left them. -/
def IsFresh (info : calcinfo_t) : Prop :=
  info.backscrub_ctx = none ∧ info.input = Mat.empty ∧ info.output = Mat.empty ∧
  info.mask = Mat.empty ∧ info.ofinal = Mat.empty

/-- The session state with the contents of the low-res working mask
disregarded (they are indeterminate after `init_tensorflow`). -/
def forget_ofinal (info : calcinfo_t) : calcinfo_t :=
  { info with ofinal := { info.ofinal with data := [] } }

/-! ## Sample data -/

/-- A coarse monotone stand-in for the C library `expf`: 0 at -∞, 1/2 on the
negative numbers, 1 at zero, 2 on the positive numbers, +∞ at +∞, NaN at NaN. -/
def expf_step : FP → FP
  | FP.nan => FP.nan
  | FP.inf true => FP.fin 0
  | FP.inf false => FP.inf false
  | FP.nzero => FP.fin 1
  | FP.fin q => if q < 0 then FP.fin (1 / 2) else if q = 0 then FP.fin 1 else FP.fin 2

/-- A two-pixel BodyPix output: the `float`s nearest to 0.70 and 0.10. -/
def sample_probs : List FP := [FP.fin (11744051 / 2 ^ 24), FP.fin (13421773 / 2 ^ 27)]

/-- A one-pixel DeepLab output all of whose scores lie below -10000: "person"
(index 15) holds -15000, every other class holds -20000. -/
def low_scores : List FP :=
  (List.range 21).map (fun i => if i = 15 then FP.fin (-15000) else FP.fin (-20000))

/-- A sample interpreter: a 1×2×2×3 input, a 1×2×2×1 output, and an `Invoke` that
reports the probability 0.9 for each of the four pixels. -/
def sample_interpreter : Interpreter :=
  { input := ⟨TfLiteType.kTfLiteFloat32, [1, 2, 2, 3], some (List.replicate 12 (FP.fin 0))⟩
    output := ⟨TfLiteType.kTfLiteFloat32, [1, 2, 2, 1], some (List.replicate 4 (FP.fin 0))⟩
    allocateOk := true
    invoke := fun _ => some (List.replicate 4 (FP.fin (9 / 10))) }

/-- A sample environment in which every model file loads and builds
`sample_interpreter`. -/
def sample_env : Env :=
  { BuildFromFile := fun _ => some ⟨some sample_interpreter⟩
    crop := fun m _ => m
    resize := fun m s =>
      ⟨s.height, s.width, m.channels,
        List.replicate (s.height * s.width).toNat (m.data.getD 0 0), true⟩
    cvtColor := fun m => m
    bilateralFilter := fun m => m
    convertTo := fun m _ _ => m.data.map (fun _ => FP.fin 0)
    blur := fun m _ => m
    expf := expf_step }

/-- A sample state before the first `init_tensorflow`: a 4 × 2 frame. -/
def sample_info (modelname : String) : calcinfo_t :=
  { modelname := modelname
    threads := 2
    width := 4
    height := 2
    debug := false
    raw := ⟨2, 4, 3, List.replicate 24 0, true⟩
    input := Mat.empty
    output := Mat.empty
    roidim := ⟨0, 0, 0, 0⟩
    mask := Mat.empty
    mroi := none
    ofinal := Mat.empty
    blur := ⟨0, 0⟩
    ratio := FP.fin 0
    backscrub_ctx := none }

/-! ## Theorems -/

/-! ### Rounding -/

namespace FP

theorem rne_intCast (n : ℤ) : rne (n : ℚ) = n := by
  unfold rne
  simp

theorem floor_le_rne (t : ℚ) : ⌊t⌋ ≤ rne t := by
  unfold rne
  split_ifs <;> omega

theorem rne_le_floor_succ (t : ℚ) : rne t ≤ ⌊t⌋ + 1 := by
  unfold rne
  split_ifs <;> omega

theorem rne_mono {t u : ℚ} (h : t ≤ u) : rne t ≤ rne u := by
  have hf : ⌊t⌋ ≤ ⌊u⌋ := Int.floor_mono h
  rcases lt_or_eq_of_le hf with hlt | heq
  · calc rne t ≤ ⌊t⌋ + 1 := rne_le_floor_succ t
      _ ≤ ⌊u⌋ := hlt
      _ ≤ rne u := floor_le_rne u
  · have hr : t - ⌊t⌋ ≤ u - ⌊u⌋ := by rw [heq]; linarith
    unfold rne
    rw [heq]
    rw [heq] at hr
    split_ifs <;> first | omega | (exfalso; linarith)

theorem le_rne_of_intCast_le {n : ℤ} {t : ℚ} (h : (n : ℚ) ≤ t) : n ≤ rne t := by
  have := rne_mono h
  rwa [rne_intCast] at this

theorem rne_le_of_le_intCast {n : ℤ} {t : ℚ} (h : t ≤ (n : ℚ)) : rne t ≤ n := by
  have := rne_mono h
  rwa [rne_intCast] at this

theorem two_zpow_pos (k : ℤ) : (0 : ℚ) < (2 : ℚ) ^ k := zpow_pos (by norm_num) k

theorem two_zpow_eq_cast {k : ℤ} (hk : 0 ≤ k) : (2 : ℚ) ^ k = (((2 : ℤ) ^ k.toNat : ℤ) : ℚ) := by
  have h : (2 : ℚ) ^ k = (2 : ℚ) ^ ((k.toNat : ℕ) : ℤ) := by rw [Int.toNat_of_nonneg hk]
  rw [h, zpow_natCast]
  push_cast
  rfl

theorem roundMag_nonneg (F : Format) {a : ℚ} (ha : 0 ≤ a) : 0 ≤ roundMag F a := by
  unfold roundMag
  apply mul_nonneg _ (two_zpow_pos _).le
  have : (0 : ℤ) ≤ rne (a / (2 : ℚ) ^ ulpExp F a) := by
    apply le_rne_of_intCast_le
    simp only [Int.cast_zero]
    exact div_nonneg ha (two_zpow_pos _).le
  exact_mod_cast this

theorem roundMag_zero (F : Format) : roundMag F 0 = 0 := by
  unfold roundMag
  simp [rne]

theorem roundMag_mono_pos (F : Format) (hp : 1 ≤ F.prec) {a b : ℚ} (ha : 0 < a) (hab : a ≤ b) :
    roundMag F a ≤ roundMag F b := by
  have hb : 0 < b := lt_of_lt_of_le ha hab
  have hlog : Int.log 2 a ≤ Int.log 2 b := Int.log_mono_right ha hab
  have hle : ulpExp F a ≤ ulpExp F b := by
    unfold ulpExp
    exact max_le_max (by omega) le_rfl
  rcases lt_or_eq_of_le hle with hlt | heq
  · -- different binades: separate by the power of two `2 ^ L`
    have hbm : ulpExp F b = Int.log 2 b - ((F.prec : ℤ) - 1) := by
      unfold ulpExp at hlt ⊢
      rcases max_cases (Int.log 2 b - ((F.prec : ℤ) - 1)) F.emin with ⟨h1, _⟩ | ⟨h1, _⟩
      · exact h1
      · exfalso
        rw [h1] at hlt
        have := le_max_right (Int.log 2 a - ((F.prec : ℤ) - 1)) F.emin
        omega
    have ham : Int.log 2 a - ((F.prec : ℤ) - 1) ≤ ulpExp F a := le_max_left _ _
    have hL : Int.log 2 a + 1 ≤ Int.log 2 b := by omega
    have h2L : (2 : ℚ) ^ Int.log 2 b ≤ b := by
      have := Int.zpow_log_le_self (R := ℚ) (b := 2) (by norm_num) hb
      simpa using this
    have haL : a ≤ (2 : ℚ) ^ Int.log 2 b := by
      have h1 := Int.lt_zpow_succ_log_self (R := ℚ) (b := 2) (by norm_num) a
      have h2 : ((2 : ℕ) : ℚ) ^ (Int.log 2 a + 1) ≤ ((2 : ℕ) : ℚ) ^ Int.log 2 b :=
        zpow_le_zpow_right₀ (by norm_num) hL
      have := h1.le.trans h2
      simpa using this
    have hup : roundMag F a ≤ (2 : ℚ) ^ Int.log 2 b := by
      unfold roundMag
      have hk : 0 ≤ Int.log 2 b - ulpExp F a := by omega
      have hq : a / (2 : ℚ) ^ ulpExp F a ≤ (((2 : ℤ) ^ (Int.log 2 b - ulpExp F a).toNat : ℤ) : ℚ) := by
        rw [← two_zpow_eq_cast hk, zpow_sub₀ (by norm_num)]
        exact div_le_div_of_nonneg_right haL (two_zpow_pos _).le
      have hr := rne_le_of_le_intCast hq
      have hr2 : (rne (a / (2 : ℚ) ^ ulpExp F a) : ℚ) ≤ (2 : ℚ) ^ (Int.log 2 b - ulpExp F a) := by
        rw [two_zpow_eq_cast hk]
        exact_mod_cast hr
      calc (rne (a / (2 : ℚ) ^ ulpExp F a) : ℚ) * (2 : ℚ) ^ ulpExp F a
          ≤ (2 : ℚ) ^ (Int.log 2 b - ulpExp F a) * (2 : ℚ) ^ ulpExp F a :=
            mul_le_mul_of_nonneg_right hr2 (two_zpow_pos _).le
        _ = (2 : ℚ) ^ Int.log 2 b := by
            rw [← zpow_add₀ (by norm_num)]; congr 1; ring
    have hdown : (2 : ℚ) ^ Int.log 2 b ≤ roundMag F b := by
      unfold roundMag
      have hk : 0 ≤ Int.log 2 b - ulpExp F b := by omega
      have hq : (((2 : ℤ) ^ (Int.log 2 b - ulpExp F b).toNat : ℤ) : ℚ) ≤ b / (2 : ℚ) ^ ulpExp F b := by
        rw [← two_zpow_eq_cast hk, zpow_sub₀ (by norm_num)]
        exact div_le_div_of_nonneg_right h2L (two_zpow_pos _).le
      have hr := le_rne_of_intCast_le hq
      have hr2 : (2 : ℚ) ^ (Int.log 2 b - ulpExp F b) ≤ (rne (b / (2 : ℚ) ^ ulpExp F b) : ℚ) := by
        rw [two_zpow_eq_cast hk]
        exact_mod_cast hr
      calc (2 : ℚ) ^ Int.log 2 b
          = (2 : ℚ) ^ (Int.log 2 b - ulpExp F b) * (2 : ℚ) ^ ulpExp F b := by
            rw [← zpow_add₀ (by norm_num)]; congr 1; ring
        _ ≤ (rne (b / (2 : ℚ) ^ ulpExp F b) : ℚ) * (2 : ℚ) ^ ulpExp F b :=
            mul_le_mul_of_nonneg_right hr2 (two_zpow_pos _).le
    exact hup.trans hdown
  · unfold roundMag
    rw [heq]
    apply mul_le_mul_of_nonneg_right _ (two_zpow_pos _).le
    have : rne (a / (2 : ℚ) ^ ulpExp F b) ≤ rne (b / (2 : ℚ) ^ ulpExp F b) :=
      rne_mono (div_le_div_of_nonneg_right hab (two_zpow_pos _).le)
    exact_mod_cast this

theorem roundMag_mono (F : Format) (hp : 1 ≤ F.prec) {a b : ℚ} (ha : 0 ≤ a) (hab : a ≤ b) :
    roundMag F a ≤ roundMag F b := by
  rcases lt_or_eq_of_le ha with h | h
  · exact roundMag_mono_pos F hp h hab
  · rw [← h, roundMag_zero]
    exact roundMag_nonneg F (ha.trans hab)

/-- Exactness on representable magnitudes. -/
theorem roundMag_exact (F : Format) (m : ℕ) (e : ℤ) (hm : m < 2 ^ F.prec) (he : F.emin ≤ e) :
    roundMag F ((m : ℚ) * (2 : ℚ) ^ e) = (m : ℚ) * (2 : ℚ) ^ e := by
  rcases Nat.eq_zero_or_pos m with rfl | hmpos
  · simp [roundMag_zero]
  have ha : (0 : ℚ) < (m : ℚ) * (2 : ℚ) ^ e :=
    mul_pos (by exact_mod_cast hmpos) (two_zpow_pos _)
  have hlt : (m : ℚ) * (2 : ℚ) ^ e < ((2 : ℕ) : ℚ) ^ (e + F.prec) := by
    have h1 : (m : ℚ) < (2 : ℚ) ^ (F.prec : ℤ) := by
      rw [zpow_natCast]; exact_mod_cast hm
    have : (m : ℚ) * (2 : ℚ) ^ e < (2 : ℚ) ^ (F.prec : ℤ) * (2 : ℚ) ^ e :=
      mul_lt_mul_of_pos_right h1 (two_zpow_pos _)
    rw [← zpow_add₀ (by norm_num)] at this
    rw [add_comm]
    simpa using this
  have hlog : Int.log 2 ((m : ℚ) * (2 : ℚ) ^ e) < e + F.prec :=
    (Int.lt_zpow_iff_log_lt (by norm_num) ha).mp hlt
  have hu : ulpExp F ((m : ℚ) * (2 : ℚ) ^ e) ≤ e := by
    unfold ulpExp
    exact max_le (by omega) he
  unfold roundMag
  set u := ulpExp F ((m : ℚ) * (2 : ℚ) ^ e) with hu_def
  have hk : 0 ≤ e - u := by omega
  have hq : (m : ℚ) * (2 : ℚ) ^ e / (2 : ℚ) ^ u = (((m : ℤ) * (2 : ℤ) ^ (e - u).toNat : ℤ) : ℚ) := by
    rw [mul_div_assoc, ← zpow_sub₀ (by norm_num), two_zpow_eq_cast hk]
    push_cast
    rfl
  rw [hq, rne_intCast]
  have h2 : (((m : ℤ) * (2 : ℤ) ^ (e - u).toNat : ℤ) : ℚ) = (m : ℚ) * (2 : ℚ) ^ (e - u) := by
    rw [two_zpow_eq_cast hk]
    push_cast
    rfl
  rw [h2, mul_assoc, ← zpow_add₀ (by norm_num)]
  congr 2
  ring

theorem log_eq_of_bounds {a : ℚ} {L : ℤ} (h1 : (2 : ℚ) ^ L ≤ a) (h2 : a < (2 : ℚ) ^ (L + 1)) :
    Int.log 2 a = L := by
  have ha : 0 < a := lt_of_lt_of_le (two_zpow_pos L) h1
  have hle : L ≤ Int.log 2 a := by
    apply (Int.zpow_le_iff_le_log (R := ℚ) (b := 2) (by norm_num) ha).mp
    simpa using h1
  have hlt : Int.log 2 a < L + 1 := by
    apply (Int.lt_zpow_iff_log_lt (R := ℚ) (b := 2) (by norm_num) ha).mp
    simpa using h2
  omega

theorem rne_eq_of_abs_sub_lt {t : ℚ} {n : ℤ} (h : |t - n| < 1 / 2) : rne t = n := by
  rw [abs_lt] at h
  rcases le_or_lt (n : ℚ) t with hn | hn
  · have hf : ⌊t⌋ = n := by
      rw [Int.floor_eq_iff]
      constructor <;> linarith
    unfold rne
    rw [hf, if_pos (by linarith)]
  · have hf : ⌊t⌋ = n - 1 := by
      rw [Int.floor_eq_iff]
      push_cast
      constructor <;> linarith
    unfold rne
    rw [hf]
    push_cast
    rw [if_neg (by linarith), if_pos (by linarith)]
    ring

/-- Evaluation of `roundMag` from a bracketing of its argument. -/
theorem roundMag_eq (F : Format) {a : ℚ} (L u n : ℤ) (h1 : (2 : ℚ) ^ L ≤ a)
    (h2 : a < (2 : ℚ) ^ (L + 1)) (hu : u = max (L - ((F.prec : ℤ) - 1)) F.emin)
    (hn : |a / (2 : ℚ) ^ u - n| < 1 / 2) : roundMag F a = (n : ℚ) * (2 : ℚ) ^ u := by
  have hue : ulpExp F a = u := by
    unfold ulpExp
    rw [log_eq_of_bounds h1 h2, hu]
  unfold roundMag
  rw [hue, rne_eq_of_abs_sub_lt hn]

theorem round_of_nonneg (F : Format) {q : ℚ} (hq : 0 ≤ q)
    (hr : roundMag F q < (2 : ℚ) ^ (F.emax + F.prec)) : round F q = fin (roundMag F q) := by
  unfold round
  rw [abs_of_nonneg hq, if_neg (not_le.mpr hr), if_neg (not_lt.mpr hq)]

theorem round_of_neg (F : Format) {q : ℚ} (hq : q < 0)
    (hr : roundMag F (-q) < (2 : ℚ) ^ (F.emax + F.prec)) (h0 : roundMag F (-q) ≠ 0) :
    round F q = fin (-roundMag F (-q)) := by
  unfold round
  rw [abs_of_neg hq, if_neg (not_le.mpr hr), if_pos hq, if_neg h0]

theorem repr_lt_overflow (F : Format) (m : ℕ) (e : ℤ) (hm : m < 2 ^ F.prec) (he : e ≤ F.emax) :
    (m : ℚ) * (2 : ℚ) ^ e < (2 : ℚ) ^ (F.emax + F.prec) := by
  have h1 : (m : ℚ) < (2 : ℚ) ^ (F.prec : ℤ) := by
    rw [zpow_natCast]; exact_mod_cast hm
  have h2 : (2 : ℚ) ^ e ≤ (2 : ℚ) ^ F.emax := zpow_le_zpow_right₀ (by norm_num) he
  calc (m : ℚ) * (2 : ℚ) ^ e < (2 : ℚ) ^ (F.prec : ℤ) * (2 : ℚ) ^ e :=
        mul_lt_mul_of_pos_right h1 (two_zpow_pos _)
    _ ≤ (2 : ℚ) ^ (F.prec : ℤ) * (2 : ℚ) ^ F.emax :=
        mul_le_mul_of_nonneg_left h2 (two_zpow_pos _).le
    _ = (2 : ℚ) ^ (F.emax + F.prec) := by
        rw [← zpow_add₀ (by norm_num), add_comm]

/-- A representable non-negative value rounds to itself. -/
theorem round_exact (F : Format) (m : ℕ) (e : ℤ) (hm : m < 2 ^ F.prec) (he : F.emin ≤ e)
    (he2 : e ≤ F.emax) : round F ((m : ℚ) * (2 : ℚ) ^ e) = fin ((m : ℚ) * (2 : ℚ) ^ e) := by
  have hq : (0 : ℚ) ≤ (m : ℚ) * (2 : ℚ) ^ e :=
    mul_nonneg (Nat.cast_nonneg m) (two_zpow_pos _).le
  have hx := roundMag_exact F m e hm he
  rw [round_of_nonneg F hq (by rw [hx]; exact repr_lt_overflow F m e hm he2), hx]

/-- A representable negative value rounds to itself. -/
theorem round_exact_neg (F : Format) (m : ℕ) (e : ℤ) (hm0 : 0 < m) (hm : m < 2 ^ F.prec)
    (he : F.emin ≤ e) (he2 : e ≤ F.emax) :
    round F (-((m : ℚ) * (2 : ℚ) ^ e)) = fin (-((m : ℚ) * (2 : ℚ) ^ e)) := by
  have hq : (0 : ℚ) < (m : ℚ) * (2 : ℚ) ^ e :=
    mul_pos (by exact_mod_cast hm0) (two_zpow_pos _)
  have hx := roundMag_exact F m e hm he
  rw [round_of_neg F (by linarith) (by rw [neg_neg, hx]; exact repr_lt_overflow F m e hm he2)
    (by rw [neg_neg, hx]; exact hq.ne'), neg_neg, hx]

theorem ofInt_natCast (F : Format) (n : ℕ) (hn : n < 2 ^ F.prec) (he : F.emin ≤ 0)
    (he2 : 0 ≤ F.emax) : ofInt F (n : ℤ) = fin (n : ℚ) := by
  have := round_exact F n 0 hn he he2
  simpa [ofInt] using this

theorem ofInt_negNatCast (F : Format) (n : ℕ) (hn0 : 0 < n) (hn : n < 2 ^ F.prec)
    (he : F.emin ≤ 0) (he2 : 0 ≤ F.emax) : ofInt F (-(n : ℤ)) = fin (-(n : ℚ)) := by
  have := round_exact_neg F n 0 hn0 hn he he2
  simpa [ofInt] using this

end FP

/-! ### Values of a format -/

namespace FP

theorem rne_nonneg {t : ℚ} (h : 0 ≤ t) : 0 ≤ rne t := by
  apply le_rne_of_intCast_le
  simpa using h

/-- The integer significand produced by rounding is at most `2 ^ prec`. -/
theorem rne_scaled_le (F : Format) (a : ℚ) :
    rne (a / (2 : ℚ) ^ ulpExp F a) ≤ (2 : ℤ) ^ F.prec := by
  apply rne_le_of_le_intCast
  have h1 := Int.lt_zpow_succ_log_self (R := ℚ) (b := 2) (by norm_num) a
  have h1' : a < (2 : ℚ) ^ (Int.log 2 a + 1) := by simpa using h1
  have hu : Int.log 2 a - ((F.prec : ℤ) - 1) ≤ ulpExp F a := le_max_left _ _
  have h2 : (2 : ℚ) ^ (Int.log 2 a + 1) ≤ (2 : ℚ) ^ ((F.prec : ℤ) + ulpExp F a) :=
    zpow_le_zpow_right₀ (by norm_num) (by omega)
  rw [div_le_iff₀ (two_zpow_pos _)]
  push_cast
  rw [← zpow_natCast (2 : ℚ) F.prec, ← zpow_add₀ (by norm_num)]
  exact (h1'.le).trans h2

/-- Every rounded magnitude that does not overflow is representable. -/
theorem roundMag_repr (F : Format) (hp : 1 ≤ F.prec) (hfmt : F.emin ≤ F.emax) {a : ℚ}
    (ha : 0 < a) (hov : roundMag F a < (2 : ℚ) ^ (F.emax + F.prec)) :
    ∃ m : ℤ, ∃ e : ℤ, 0 ≤ m ∧ m < (2 : ℤ) ^ F.prec ∧ F.emin ≤ e ∧ e ≤ F.emax ∧
      roundMag F a = (m : ℚ) * (2 : ℚ) ^ e := by
  have hm0 : 0 ≤ rne (a / (2 : ℚ) ^ ulpExp F a) :=
    rne_nonneg (div_nonneg ha.le (two_zpow_pos _).le)
  have hmle := rne_scaled_le F a
  have hemin : F.emin ≤ ulpExp F a := le_max_right _ _
  rcases lt_or_eq_of_le hmle with hlt | heq
  · refine ⟨rne (a / (2 : ℚ) ^ ulpExp F a), ulpExp F a, hm0, hlt, hemin, ?_, rfl⟩
    -- the exponent is in range
    rcases max_cases (Int.log 2 a - ((F.prec : ℤ) - 1)) F.emin with ⟨h1, _⟩ | ⟨h1, _⟩
    · have hu : ulpExp F a = Int.log 2 a - ((F.prec : ℤ) - 1) := h1
      have h2L : (2 : ℚ) ^ Int.log 2 a ≤ a := by
        have := Int.zpow_log_le_self (R := ℚ) (b := 2) (by norm_num) ha
        simpa using this
      have hk : 0 ≤ (F.prec : ℤ) - 1 := by omega
      have hq : (((2 : ℤ) ^ ((F.prec : ℤ) - 1).toNat : ℤ) : ℚ) ≤ a / (2 : ℚ) ^ ulpExp F a := by
        rw [← two_zpow_eq_cast hk, le_div_iff₀ (two_zpow_pos _), ← zpow_add₀ (by norm_num), hu]
        have : (F.prec : ℤ) - 1 + (Int.log 2 a - ((F.prec : ℤ) - 1)) = Int.log 2 a := by ring
        rw [this]
        exact h2L
      have hr := le_rne_of_intCast_le hq
      have hr2 : (2 : ℚ) ^ ((F.prec : ℤ) - 1) ≤ (rne (a / (2 : ℚ) ^ ulpExp F a) : ℚ) := by
        rw [two_zpow_eq_cast hk]
        exact_mod_cast hr
      have hlow : (2 : ℚ) ^ ((F.prec : ℤ) - 1 + ulpExp F a) ≤ roundMag F a := by
        unfold roundMag
        rw [zpow_add₀ (by norm_num)]
        exact mul_le_mul_of_nonneg_right hr2 (two_zpow_pos _).le
      have hlt2 := lt_of_le_of_lt hlow hov
      have := (zpow_lt_zpow_iff_right₀ (by norm_num : (1 : ℚ) < 2)).mp hlt2
      omega
    · have hu : ulpExp F a = F.emin := h1
      rw [hu]
      exact hfmt
  · -- carry into the next binade
    have hov' : (2 : ℚ) ^ ((F.prec : ℤ) + ulpExp F a) < (2 : ℚ) ^ (F.emax + F.prec) := by
      have e : roundMag F a = (2 : ℚ) ^ ((F.prec : ℤ) + ulpExp F a) := by
        unfold roundMag
        rw [heq, zpow_add₀ (by norm_num), zpow_natCast]
        push_cast
        rfl
      rw [← e]
      exact hov
    have hu := (zpow_lt_zpow_iff_right₀ (by norm_num : (1 : ℚ) < 2)).mp hov'
    refine ⟨(2 : ℤ) ^ (F.prec - 1), ulpExp F a + 1, by positivity, ?_, by omega, by omega, ?_⟩
    · exact pow_lt_pow_right₀ (by norm_num) (by omega)
    · unfold roundMag
      rw [heq, zpow_add₀ (by norm_num), zpow_one]
      push_cast
      have hp' : F.prec = (F.prec - 1) + 1 := by omega
      rw [hp', pow_succ]
      simp only [Nat.add_sub_cancel]
      ring

/-- Rounding yields a value of the format. -/
theorem round_isValue (F : Format) (hp : 1 ≤ F.prec) (hfmt : F.emin ≤ F.emax) (q : ℚ) :
    IsValue F (round F q) := by
  unfold round
  by_cases hov : (2 : ℚ) ^ (F.emax + F.prec) ≤ roundMag F |q|
  · rw [if_pos hov]; trivial
  · rw [if_neg hov]
    have hov' := not_le.mp hov
    by_cases hneg : q < 0
    · rw [if_pos hneg]
      by_cases hz : roundMag F |q| = 0
      · rw [if_pos hz]; trivial
      · rw [if_neg hz]
        obtain ⟨m, e, hm0, hm, he1, he2, hr⟩ :=
          roundMag_repr F hp hfmt (abs_pos.mpr hneg.ne) hov'
        refine ⟨-m, e, ?_, he1, he2, ?_⟩
        · rw [abs_neg, abs_of_nonneg hm0]; exact hm
        · rw [hr]; push_cast; ring
    · rw [if_neg hneg]
      rcases eq_or_lt_of_le (not_lt.mp hneg) with h0 | hpos
      · rw [← h0, abs_zero, roundMag_zero]
        exact ⟨0, F.emin, by simp, le_refl _, hfmt, by simp⟩
      · obtain ⟨m, e, hm0, hm, he1, he2, hr⟩ :=
          roundMag_repr F hp hfmt (abs_pos.mpr hpos.ne') hov'
        exact ⟨m, e, by rw [abs_of_nonneg hm0]; exact hm, he1, he2, hr⟩

theorem zero_isValue (F : Format) (hfmt : F.emin ≤ F.emax) (b : Bool) :
    IsValue F (zero b) := by
  cases b
  · exact ⟨0, F.emin, by simp, le_refl _, hfmt, by simp⟩
  · trivial

/-- The arithmetic of the embedding stays within the format: conversions,
sums, differences and quotients are values of the format. -/
theorem arith_isValue (F : Format) (hp : 1 ≤ F.prec) (hfmt : F.emin ≤ F.emax) (x y : FP) :
    IsValue F (cvt F x) ∧ IsValue F (add F x y) ∧ IsValue F (sub F x y) ∧
    IsValue F (div F x y) ∧ (∀ n : ℤ, IsValue F (ofInt F n)) := by
  have hadd : ∀ x y : FP, IsValue F (add F x y) := by
    intro x y
    cases x with
    | nan => cases y <;> trivial
    | inf a =>
      cases y with
      | nan => trivial
      | inf b => simp only [add]; split_ifs <;> trivial
      | nzero => trivial
      | fin q => trivial
    | nzero =>
      cases y with
      | nan => trivial
      | inf b => trivial
      | nzero => trivial
      | fin q => exact round_isValue F hp hfmt q
    | fin p =>
      cases y with
      | nan => trivial
      | inf b => trivial
      | nzero => exact round_isValue F hp hfmt p
      | fin q => exact round_isValue F hp hfmt (p + q)
  have hdivFin : ∀ (sx sy : Bool) (vx vy : ℚ), IsValue F (divFin F sx sy vx vy) := by
    intro sx sy vx vy
    unfold divFin
    split_ifs
    · trivial
    · trivial
    · exact zero_isValue F hfmt _
    · exact round_isValue F hp hfmt _
  refine ⟨?_, hadd x y, hadd x (neg y), ?_, fun n => round_isValue F hp hfmt n⟩
  · cases x with
    | nan => trivial
    | inf a => trivial
    | nzero => trivial
    | fin q => exact round_isValue F hp hfmt q
  · cases x with
    | nan => cases y <;> trivial
    | inf a =>
      cases y with
      | nan => trivial
      | inf b => trivial
      | nzero => trivial
      | fin q => trivial
    | nzero =>
      cases y with
      | nan => trivial
      | inf b => exact zero_isValue F hfmt _
      | nzero => trivial
      | fin q => exact hdivFin _ _ _ _
    | fin p =>
      cases y with
      | nan => trivial
      | inf b => exact zero_isValue F hfmt _
      | nzero => exact hdivFin _ _ _ _
      | fin q => exact hdivFin _ _ _ _

end FP

/-! ### Constants -/

namespace FP

/-- Evaluation of `round` on a positive argument from a bracketing. -/
theorem round_eval (F : Format) {a : ℚ} (L u n : ℤ) (h1 : (2 : ℚ) ^ L ≤ a)
    (h2 : a < (2 : ℚ) ^ (L + 1)) (hu : u = max (L - ((F.prec : ℤ) - 1)) F.emin)
    (hn : |a / (2 : ℚ) ^ u - n| < 1 / 2)
    (hov : (n : ℚ) * (2 : ℚ) ^ u < (2 : ℚ) ^ (F.emax + F.prec)) :
    round F a = fin ((n : ℚ) * (2 : ℚ) ^ u) := by
  have ha : 0 ≤ a := (two_zpow_pos L).le.trans h1
  have hm := roundMag_eq F L u n h1 h2 hu hn
  rw [round_of_nonneg F ha (by rw [hm]; exact hov), hm]

end FP

theorem threshold_eq : threshold = FP.fin (5854679515581645 / 2 ^ 53) := by
  unfold threshold
  rw [FP.round_eval FP.binary64 (-1) (-53) 5854679515581645 (by norm_num) (by norm_num)
    (by norm_num [FP.binary64]) (by norm_num [abs_lt]) (by norm_num [FP.binary64])]
  norm_num

theorem scaling_deeplab_eq :
    FP.cvt FP.binary32
      (FP.div FP.binary64 (FP.ofInt FP.binary64 1) (FP.round FP.binary64 (1275 / 10))) =
    FP.fin (8421505 / 2 ^ 30) := by
  have h1 : FP.ofInt FP.binary64 1 = FP.fin 1 := by
    have := FP.ofInt_natCast FP.binary64 1 (by norm_num [FP.binary64])
      (by norm_num [FP.binary64]) (by norm_num [FP.binary64])
    simpa using this
  have h2 : FP.round FP.binary64 (1275 / 10) = FP.fin (1275 / 10) := by
    have := FP.round_exact FP.binary64 255 (-1) (by norm_num [FP.binary64])
      (by norm_num [FP.binary64]) (by norm_num [FP.binary64])
    norm_num at this ⊢
    exact this
  rw [h1, h2]
  have h3 : FP.div FP.binary64 (FP.fin 1) (FP.fin (1275 / 10)) =
      FP.fin (4521260802379792 / 2 ^ 59) := by
    simp only [FP.div, FP.divFin]
    norm_num
    rw [FP.round_eval FP.binary64 (-7) (-59) 4521260802379792 (by norm_num) (by norm_num)
      (by norm_num [FP.binary64]) (by norm_num [abs_lt]) (by norm_num [FP.binary64])]
    norm_num
  rw [h3]
  simp only [FP.cvt]
  rw [FP.round_eval FP.binary32 (-7) (-30) 8421505 (by norm_num) (by norm_num)
      (by norm_num [FP.binary32]) (by norm_num [abs_lt]) (by norm_num [FP.binary32])]
  norm_num

/-! ### The write loop -/

theorem writeLoop_succ (val : Nat → Nat) (total : Nat) (out : List Nat) :
    writeLoop val (total + 1) out =
      (writeLoop val total out).set total
        (blend (val total) ((writeLoop val total out).getD total 0)) := by
  unfold writeLoop
  rw [List.range_succ, List.foldl_append]
  rfl

theorem writeLoop_length (val : Nat → Nat) (total : Nat) (out : List Nat) :
    (writeLoop val total out).length = out.length := by
  induction total with
  | zero => rfl
  | succ t ih => rw [writeLoop_succ, List.length_set, ih]

theorem writeLoop_getD_ge (val : Nat → Nat) (total : Nat) (out : List Nat) (n : Nat)
    (h : total ≤ n) : (writeLoop val total out).getD n 0 = out.getD n 0 := by
  induction total with
  | zero => rfl
  | succ t ih =>
    rw [writeLoop_succ, List.getD_eq_getElem?_getD, List.getElem?_set_ne (by omega),
      ← List.getD_eq_getElem?_getD, ih (by omega)]

theorem writeLoop_getD_lt (val : Nat → Nat) (total : Nat) (out : List Nat) (n : Nat)
    (h : n < total) (hlen : n < out.length) :
    (writeLoop val total out).getD n 0 = blend (val n) (out.getD n 0) := by
  induction total with
  | zero => omega
  | succ t ih =>
    rw [writeLoop_succ]
    rcases Nat.lt_succ_iff_lt_or_eq.mp h with hlt | heq
    · rw [List.getD_eq_getElem?_getD, List.getElem?_set_ne (by omega),
        ← List.getD_eq_getElem?_getD, ih hlt]
    · subst heq
      rw [List.getD_eq_getElem?_getD, List.getElem?_set_eq_of_lt _ (by rw [writeLoop_length]; exact hlen),
        writeLoop_getD_ge val n out n le_rfl]
      rfl

/-! ### The probability threshold -/

theorem FP.cvt64_of_isValue32 {x : FP} (h : FP.IsValue FP.binary32 x) :
    FP.cvt FP.binary64 x = x := by
  cases x with
  | nan => rfl
  | inf s => rfl
  | nzero => rfl
  | fin q =>
    obtain ⟨m, e, hm, he1, he2, hq⟩ := h
    simp only [FP.binary32] at hm he1 he2
    simp only [FP.cvt]
    rw [abs_lt] at hm
    rcases le_or_lt 0 m with h0 | h0
    · have hcast : ((m.toNat : ℕ) : ℚ) = (m : ℚ) := by
        have : ((m.toNat : ℕ) : ℤ) = m := Int.toNat_of_nonneg h0
        exact_mod_cast this
      have := FP.round_exact FP.binary64 m.toNat e
        (by simp only [FP.binary64]; omega) (by simp only [FP.binary64]; omega)
        (by simp only [FP.binary64]; omega)
      rw [hcast] at this
      rw [hq, this]
    · have hcast : (((-m).toNat : ℕ) : ℚ) = -(m : ℚ) := by
        have : (((-m).toNat : ℕ) : ℤ) = -m := Int.toNat_of_nonneg (by omega)
        exact_mod_cast this
      have := FP.round_exact_neg FP.binary64 (-m).toNat e (by omega)
        (by simp only [FP.binary64]; omega) (by simp only [FP.binary64]; omega)
        (by simp only [FP.binary64]; omega)
      rw [hcast] at this
      rw [hq]
      simpa using this

/-- No `float` lies between the real number 0.65 and the `double` nearest to it. -/
theorem lt_threshold_iff {q : ℚ} (h : FP.IsValue FP.binary32 (FP.fin q)) :
    (5854679515581645 / 2 ^ 53 < q) ↔ 65 / 100 < q := by
  constructor
  · intro h1
    have : (65 / 100 : ℚ) < 5854679515581645 / 2 ^ 53 := by norm_num
    exact this.trans h1
  · intro h1
    obtain ⟨m, e, hm, he1, _, hq⟩ := h
    simp only [FP.binary32] at hm he1
    rw [abs_lt] at hm
    have hmpos : 0 < m := by
      by_contra hneg
      have hm0 : (m : ℚ) ≤ 0 := by exact_mod_cast not_lt.mp hneg
      have : q ≤ 0 := by
        rw [hq]; exact mul_nonpos_of_nonpos_of_nonneg hm0 (FP.two_zpow_pos e).le
      linarith
    have he : -24 ≤ e := by
      by_contra hlt
      have he' : e ≤ -25 := by omega
      have h2 : (2 : ℚ) ^ e ≤ (2 : ℚ) ^ (-25 : ℤ) := zpow_le_zpow_right₀ (by norm_num) he'
      have hm' : (m : ℚ) ≤ 2 ^ 24 := by exact_mod_cast hm.2.le
      have : q ≤ 2 ^ 24 * (2 : ℚ) ^ (-25 : ℤ) := by
        rw [hq]
        exact mul_le_mul hm' h2 (FP.two_zpow_pos e).le (by norm_num)
      norm_num at this
      linarith
    have hk : 0 ≤ e + 24 := by omega
    have hK : q = ((m * (2 : ℤ) ^ (e + 24).toNat : ℤ) : ℚ) / 2 ^ 24 := by
      have h3 : (((m * (2 : ℤ) ^ (e + 24).toNat : ℤ)) : ℚ) = (m : ℚ) * (2 : ℚ) ^ (e + 24) := by
        rw [FP.two_zpow_eq_cast hk]; push_cast; rfl
      have h24 : (2 : ℚ) ^ (24 : ℤ) = 16777216 := by norm_num
      rw [h3, hq, zpow_add₀ (by norm_num), h24]
      norm_num
      ring
    set K : ℤ := m * (2 : ℤ) ^ (e + 24).toNat with hKdef
    rw [hK] at h1 ⊢
    have h4 : (65 : ℚ) * 2 ^ 24 < (K : ℚ) * 100 := by
      rw [lt_div_iff₀ (by norm_num)] at h1
      linarith
    have h5 : (65 : ℤ) * 2 ^ 24 < K * 100 := by exact_mod_cast h4
    have h6 : (10905191 : ℤ) ≤ K := by omega
    have h7 : (10905191 : ℚ) ≤ (K : ℚ) := by exact_mod_cast h6
    rw [div_lt_div_iff₀ (by norm_num) (by norm_num)]
    nlinarith

theorem threshold_val_eq_zero_iff (tmp : List FP) (n : Nat)
    (hv : FP.IsValue FP.binary32 (tmp.getD n FP.nan)) :
    threshold_val tmp n = 0 ↔ FP.Exceeds (tmp.getD n FP.nan) (65 / 100) := by
  unfold threshold_val
  rw [FP.cvt64_of_isValue32 hv, threshold_eq]
  cases hx : tmp.getD n FP.nan with
  | nan => simp [FP.gt, FP.lt, FP.Exceeds]
  | inf s => cases s <;> simp [FP.gt, FP.lt, FP.Exceeds]
  | nzero =>
    simp only [FP.gt, FP.lt, FP.Exceeds]
    norm_num
  | fin q =>
    rw [hx] at hv
    simp only [FP.gt, FP.lt, FP.Exceeds]
    rw [← lt_threshold_iff hv]
    simp

/-! ### Order -/

namespace FP

theorem lt_iff_key {a b : FP} (ha : a ≠ nan) (hb : b ≠ nan) :
    lt a b = true ↔ key a < key b := by
  cases a with
  | nan => exact absurd rfl ha
  | inf s =>
    cases b with
    | nan => exact absurd rfl hb
    | inf t => cases s <;> cases t <;> simp [lt, key, Prod.Lex.lt_iff]
    | nzero => cases s <;> simp [lt, key, Prod.Lex.lt_iff]
    | fin q => cases s <;> simp [lt, key, Prod.Lex.lt_iff]
  | nzero =>
    cases b with
    | nan => exact absurd rfl hb
    | inf t => cases t <;> simp [lt, key, Prod.Lex.lt_iff]
    | nzero => simp [lt, key, Prod.Lex.lt_iff]
    | fin q => simp [lt, key, Prod.Lex.lt_iff]
  | fin p =>
    cases b with
    | nan => exact absurd rfl hb
    | inf t => cases t <;> simp [lt, key, Prod.Lex.lt_iff]
    | nzero => simp [lt, key, Prod.Lex.lt_iff]
    | fin q => simp [lt, key, Prod.Lex.lt_iff]

theorem lt_irrefl (a : FP) : lt a a = false := by
  cases a with
  | nan => rfl
  | inf s => cases s <;> rfl
  | nzero => rfl
  | fin q => simp [lt]

theorem lt_of_lt_of_not_lt {a b c : FP} (hc : c ≠ nan) (h1 : lt a b = true)
    (h2 : lt c b = false) : lt a c = true := by
  have ha : a ≠ nan := by rintro rfl; simp [lt] at h1
  have hb : b ≠ nan := by rintro rfl; cases a <;> simp [lt] at h1
  rw [lt_iff_key ha hb] at h1
  rw [lt_iff_key ha hc]
  have h2' : ¬ key c < key b := by rw [← lt_iff_key hc hb]; simp [h2]
  exact lt_of_lt_of_le h1 (not_lt.mp h2')

theorem lt_of_not_lt_of_lt {a b c : FP} (ha : a ≠ nan) (h1 : lt b a = false)
    (h2 : lt b c = true) : lt a c = true := by
  have hb : b ≠ nan := by rintro rfl; simp [lt] at h2
  have hc : c ≠ nan := by rintro rfl; cases b <;> simp [lt] at h2
  rw [lt_iff_key hb hc] at h2
  rw [lt_iff_key ha hc]
  have h1' : ¬ key b < key a := by rw [← lt_iff_key hb ha]; simp [h1]
  exact lt_of_le_of_lt (not_lt.mp h1') h2

theorem not_lt_of_lt {a b : FP} (h : lt a b = true) : lt b a = false := by
  have ha : a ≠ nan := by rintro rfl; simp [lt] at h
  have hb : b ≠ nan := by rintro rfl; cases a <;> simp [lt] at h
  rw [lt_iff_key ha hb] at h
  by_contra h'
  have h'' : lt b a = true := by simpa using h'
  rw [lt_iff_key hb ha] at h''
  exact absurd h (not_lt.mpr h''.le)

theorem lt_trans {a b c : FP} (h1 : lt a b = true) (h2 : lt b c = true) : lt a c = true := by
  have hc : c ≠ nan := by rintro rfl; cases b <;> simp [lt] at h2
  exact lt_of_lt_of_not_lt hc h1 (not_lt_of_lt h2)

end FP

/-! ### DeepLab decoding -/

theorem ofInt_neg10000 : FP.ofInt FP.binary32 (-10000) = FP.fin (-10000) := by
  have := FP.ofInt_negNatCast FP.binary32 10000 (by norm_num) (by norm_num [FP.binary32])
    (by norm_num [FP.binary32]) (by norm_num [FP.binary32])
  simpa using this

theorem pers_eq : pers = 15 := by decide

theorem cnum_eq : cnum = 21 := by decide

/-- The state of the DeepLab inner loop after the first `k` classes. -/
theorem deeplab_scan_succ (tmp : List FP) (n k : Nat) :
    (List.range (k + 1)).foldl (deeplab_step tmp n) (FP.fin (-10000), 0) =
      deeplab_step tmp n ((List.range k).foldl (deeplab_step tmp n) (FP.fin (-10000), 0)) k := by
  rw [List.range_succ, List.foldl_append]
  rfl

/-- When no score of the pixel exceeds the initial `maxval`, the loop leaves
`maxpos` at 0. -/
theorem deeplab_scan_sentinel (tmp : List FP) (n k : Nat)
    (h : ∀ i, i < k → FP.gt (tmp.getD (n * cnum + i) FP.nan) (FP.fin (-10000)) = false) :
    (List.range k).foldl (deeplab_step tmp n) (FP.fin (-10000), 0) = (FP.fin (-10000), 0) := by
  induction k with
  | zero => rfl
  | succ k ih =>
    rw [deeplab_scan_succ, ih (fun i hi => h i (by omega))]
    have hk := h k (by omega)
    unfold deeplab_step
    simp only [hk, Bool.false_eq_true, if_false]

theorem deeplab_val_sentinel (tmp : List FP) (n : Nat)
    (h : ∀ i, i < cnum → FP.gt (tmp.getD (n * cnum + i) FP.nan) (FP.fin (-10000)) = false) :
    deeplab_val tmp n = 255 := by
  unfold deeplab_val deeplab_scan
  rw [ofInt_neg10000, deeplab_scan_sentinel tmp n cnum h]
  simp [pers_eq]

/-! ### Substring search and the byte rule -/

theorem strstr_isSome_iff (hay needle : List Char) :
    (strstr hay needle).isSome = true ↔ needle <:+: hay := by
  induction hay with
  | nil =>
    cases needle with
    | nil => simp [strstr]
    | cons a t => simp [strstr, List.isPrefixOf]
  | cons c cs ih =>
    unfold strstr
    by_cases hp : needle.isPrefixOf (c :: cs) = true
    · rw [if_pos hp]
      have hp2 : needle <+: c :: cs := List.isPrefixOf_iff_prefix.mp hp
      simp only [Option.isSome_some, true_iff]
      exact hp2.isInfix
    · rw [if_neg hp, ih, List.infix_cons_iff]
      have hp2 : ¬ needle <+: c :: cs := fun h => hp (List.isPrefixOf_iff_prefix.mpr h)
      constructor
      · intro h; exact Or.inr h
      · rintro (h | h)
        · exact absurd h hp2
        · exact h

theorem blend_three (b d : Nat) (hb : b < 256) (hd : d = 0 ∨ d = 255) :
    blend d (blend d (blend d b)) = d ∧ blend d d = d := by
  have key : ∀ b : Fin 256,
      (blend 0 (blend 0 (blend 0 b.val)) = 0 ∧ blend 0 0 = 0) ∧
      (blend 255 (blend 255 (blend 255 b.val)) = 255 ∧ blend 255 255 = 255) := by
    decide
  rcases hd with rfl | rfl
  · exact (key ⟨b, hb⟩).1
  · exact (key ⟨b, hb⟩).2

theorem writeLoop_three (val : Nat → Nat) (total : Nat) (out : List Nat) (n : Nat)
    (hn : n < total) (hlen : n < out.length) (hb : out.getD n 0 < 256)
    (hd : val n = 0 ∨ val n = 255) :
    (writeLoop val total (writeLoop val total (writeLoop val total out))).getD n 0 = val n ∧
    (writeLoop val total
      (writeLoop val total (writeLoop val total (writeLoop val total out)))).getD n 0 =
      val n := by
  have h1 : n < (writeLoop val total out).length := by rw [writeLoop_length]; exact hlen
  have h2 : n < (writeLoop val total (writeLoop val total out)).length := by
    rw [writeLoop_length]; exact h1
  have h3 : n < (writeLoop val total (writeLoop val total (writeLoop val total out))).length := by
    rw [writeLoop_length]; exact h2
  have e3 : (writeLoop val total (writeLoop val total (writeLoop val total out))).getD n 0 =
      val n := by
    rw [writeLoop_getD_lt _ _ _ _ hn h2, writeLoop_getD_lt _ _ _ _ hn h1,
      writeLoop_getD_lt _ _ _ _ hn hlen]
    exact (blend_three _ _ hb hd).1
  refine ⟨e3, ?_⟩
  rw [writeLoop_getD_lt _ _ _ _ hn h3, e3]
  exact (blend_three _ _ hb hd).2

/-! ### Constants of the classification, the normalization and the threshold -/

/-- The table test of the classification: one name for each family, a name
matching two patterns, and names that differ from a pattern only in case. -/
theorem get_modeltype_table :
    get_modeltype "models/body-pix.tflite" = modeltype_t.BodyPix ∧
    get_modeltype "models/deeplabv3_257_mv_gpu.tflite" = modeltype_t.DeepLab ∧
    get_modeltype "models/segm_full_v679.tflite" = modeltype_t.GoogleMeetSegmentation ∧
    get_modeltype "models/selfiesegmentation_mlkit-256x256.tflite" =
      modeltype_t.MLKitSelfie ∧
    get_modeltype "selfie_deeplab.tflite" = modeltype_t.DeepLab ∧
    get_modeltype "models/DeepLab.tflite" = modeltype_t.Unknown ∧
    get_modeltype "Body-Pix" = modeltype_t.Unknown ∧
    get_modeltype "" = modeltype_t.Unknown := by
  decide

theorem scaling_default_eq :
    FP.cvt FP.binary32
      (FP.div FP.binary64 (FP.ofInt FP.binary64 1) (FP.round FP.binary64 255)) =
    FP.fin (8421505 / 2 ^ 31) := by
  have h1 : FP.ofInt FP.binary64 1 = FP.fin 1 := by
    have := FP.ofInt_natCast FP.binary64 1 (by norm_num [FP.binary64])
      (by norm_num [FP.binary64]) (by norm_num [FP.binary64])
    simpa using this
  have h2 : FP.round FP.binary64 255 = FP.fin 255 := by
    have := FP.round_exact FP.binary64 255 0 (by norm_num [FP.binary64])
      (by norm_num [FP.binary64]) (by norm_num [FP.binary64])
    norm_num at this ⊢
    exact this
  rw [h1, h2]
  have h3 : FP.div FP.binary64 (FP.fin 1) (FP.fin 255) =
      FP.fin (4521260802379792 / 2 ^ 60) := by
    simp only [FP.div, FP.divFin]
    norm_num
    rw [FP.round_eval FP.binary64 (-8) (-60) 4521260802379792 (by norm_num) (by norm_num)
      (by norm_num [FP.binary64]) (by norm_num [abs_lt]) (by norm_num [FP.binary64])]
    norm_num
  rw [h3]
  simp only [FP.cvt]
  rw [FP.round_eval FP.binary32 (-8) (-31) 8421505 (by norm_num) (by norm_num)
      (by norm_num [FP.binary32]) (by norm_num [abs_lt]) (by norm_num [FP.binary32])]
  norm_num

theorem ofInt32_neg_one : FP.ofInt FP.binary32 (-1) = FP.fin (-1) := by
  have := FP.ofInt_negNatCast FP.binary32 1 (by norm_num) (by norm_num [FP.binary32])
    (by norm_num [FP.binary32]) (by norm_num [FP.binary32])
  simpa using this

theorem ofInt32_natCast (n : ℕ) (hn : n < 2 ^ 24) :
    FP.ofInt FP.binary32 (n : ℤ) = FP.fin (n : ℚ) :=
  FP.ofInt_natCast FP.binary32 n hn (by norm_num [FP.binary32]) (by norm_num [FP.binary32])

theorem ofInt32_zero : FP.ofInt FP.binary32 0 = FP.fin 0 := by
  have := ofInt32_natCast 0 (by norm_num)
  simpa using this

theorem round32_scaling_deeplab :
    FP.round FP.binary32 (1 / 127.5) = FP.fin (8421505 / 2 ^ 30) := by
  rw [FP.round_eval FP.binary32 (-7) (-30) 8421505 (by norm_num) (by norm_num)
      (by norm_num [FP.binary32]) (by norm_num [abs_lt]) (by norm_num [FP.binary32])]
  norm_num

theorem round32_scaling_default :
    FP.round FP.binary32 (1 / 255) = FP.fin (8421505 / 2 ^ 31) := by
  rw [FP.round_eval FP.binary32 (-8) (-31) 8421505 (by norm_num) (by norm_num)
      (by norm_num [FP.binary32]) (by norm_num [abs_lt]) (by norm_num [FP.binary32])]
  norm_num

theorem round32_065 : FP.round FP.binary32 (65 / 100) = FP.fin (10905190 / 2 ^ 24) := by
  rw [FP.round_eval FP.binary32 (-1) (-24) 10905190 (by norm_num) (by norm_num)
      (by norm_num [FP.binary32]) (by norm_num [abs_lt]) (by norm_num [FP.binary32])]
  norm_num

theorem round32_070 : FP.round FP.binary32 (70 / 100) = FP.fin (11744051 / 2 ^ 24) := by
  rw [FP.round_eval FP.binary32 (-1) (-24) 11744051 (by norm_num) (by norm_num)
      (by norm_num [FP.binary32]) (by norm_num [abs_lt]) (by norm_num [FP.binary32])]
  norm_num

theorem round32_010 : FP.round FP.binary32 (10 / 100) = FP.fin (13421773 / 2 ^ 27) := by
  rw [FP.round_eval FP.binary32 (-4) (-27) 13421773 (by norm_num) (by norm_num)
      (by norm_num [FP.binary32]) (by norm_num [abs_lt]) (by norm_num [FP.binary32])]
  norm_num

theorem round32_0650001 :
    FP.round FP.binary32 (6500001 / 10000000) = FP.fin (10905192 / 2 ^ 24) := by
  rw [FP.round_eval FP.binary32 (-1) (-24) 10905192 (by norm_num) (by norm_num)
      (by norm_num [FP.binary32]) (by norm_num [abs_lt]) (by norm_num [FP.binary32])]
  norm_num

theorem isValue32_of_nat_div (m : ℕ) (k : ℕ) (hm : m < 2 ^ 24) (hk : k ≤ 149) :
    FP.IsValue FP.binary32 (FP.fin ((m : ℚ) / 2 ^ k)) := by
  refine ⟨(m : ℤ), -(k : ℤ), ?_, ?_, ?_, ?_⟩
  · simp only [FP.binary32]
    rw [abs_of_nonneg (by positivity)]
    exact_mod_cast hm
  · simp only [FP.binary32]; omega
  · simp only [FP.binary32]; omega
  · rw [zpow_neg, zpow_natCast]
    push_cast
    rw [div_eq_mul_inv]

/-! ### The DeepLab scan -/

theorem deeplab_step_pos (tmp : List FP) (n : Nat) (st : FP × Nat) (i : Nat)
    (h : FP.gt (tmp.getD (n * cnum + i) FP.nan) st.1 = true) :
    deeplab_step tmp n st i = (tmp.getD (n * cnum + i) FP.nan, i) := by
  unfold deeplab_step
  rw [if_pos h]

theorem deeplab_step_neg (tmp : List FP) (n : Nat) (st : FP × Nat) (i : Nat)
    (h : FP.gt (tmp.getD (n * cnum + i) FP.nan) st.1 = false) :
    deeplab_step tmp n st i = st := by
  unfold deeplab_step
  rw [if_neg (by rw [h]; exact Bool.false_ne_true)]

/-- Invariant of the DeepLab inner loop after the first `k` classes of a pixel
without NaN scores: either no score so far exceeds -10000 and the state is the
initial one, or `maxpos` is the first index holding the maximum so far. -/
theorem deeplab_scan_inv (tmp : List FP) (n k : Nat)
    (hnan : ∀ i, i < k → tmp.getD (n * cnum + i) FP.nan ≠ FP.nan) :
    ((∀ i, i < k → FP.gt (tmp.getD (n * cnum + i) FP.nan) (FP.fin (-10000)) = false) ∧
      (List.range k).foldl (deeplab_step tmp n) (FP.fin (-10000), 0) = (FP.fin (-10000), 0)) ∨
    (((List.range k).foldl (deeplab_step tmp n) (FP.fin (-10000), 0)).2 < k ∧
      ((List.range k).foldl (deeplab_step tmp n) (FP.fin (-10000), 0)).1 =
        tmp.getD (n * cnum +
          ((List.range k).foldl (deeplab_step tmp n) (FP.fin (-10000), 0)).2) FP.nan ∧
      FP.gt ((List.range k).foldl (deeplab_step tmp n) (FP.fin (-10000), 0)).1
        (FP.fin (-10000)) = true ∧
      (∀ j, j < k →
        FP.lt ((List.range k).foldl (deeplab_step tmp n) (FP.fin (-10000), 0)).1
          (tmp.getD (n * cnum + j) FP.nan) = false) ∧
      (∀ j, j < ((List.range k).foldl (deeplab_step tmp n) (FP.fin (-10000), 0)).2 →
        FP.lt (tmp.getD (n * cnum + j) FP.nan)
          ((List.range k).foldl (deeplab_step tmp n) (FP.fin (-10000), 0)).1 = true)) := by
  induction k with
  | zero => left; exact ⟨fun i hi => absurd hi (Nat.not_lt_zero i), rfl⟩
  | succ k ih =>
    rw [deeplab_scan_succ]
    have hk : tmp.getD (n * cnum + k) FP.nan ≠ FP.nan := hnan k (by omega)
    rcases ih (fun i hi => hnan i (by omega)) with ⟨hA, hst⟩ | ⟨hB1, hB2, hB3, hB4, hB5⟩
    · rw [hst]
      by_cases hc : FP.gt (tmp.getD (n * cnum + k) FP.nan) (FP.fin (-10000)) = true
      · right
        rw [deeplab_step_pos tmp n (FP.fin (-10000), 0) k hc]
        refine ⟨by show k < k + 1; omega, rfl, hc, ?_, ?_⟩
        · intro j hj
          rcases Nat.lt_succ_iff_lt_or_eq.mp hj with hlt | rfl
          · by_contra hcon
            have hcon' : FP.lt (tmp.getD (n * cnum + k) FP.nan)
                (tmp.getD (n * cnum + j) FP.nan) = true := by simpa using hcon
            have := FP.lt_trans hc hcon'
            have h2 := hA j hlt
            unfold FP.gt at h2
            rw [h2] at this
            exact Bool.false_ne_true this
          · exact FP.lt_irrefl _
        · intro j hj
          exact FP.lt_of_not_lt_of_lt (hnan j (by have : j < k := hj; omega)) (hA j hj) hc
      · left
        have hc' : FP.gt (tmp.getD (n * cnum + k) FP.nan) (FP.fin (-10000)) = false := by
          simpa using hc
        rw [deeplab_step_neg tmp n (FP.fin (-10000), 0) k hc']
        refine ⟨?_, rfl⟩
        intro i hi
        rcases Nat.lt_succ_iff_lt_or_eq.mp hi with hlt | rfl
        · exact hA i hlt
        · exact hc'
    · right
      by_cases hc : FP.gt (tmp.getD (n * cnum + k) FP.nan)
          ((List.range k).foldl (deeplab_step tmp n) (FP.fin (-10000), 0)).1 = true
      · rw [deeplab_step_pos tmp n _ k hc]
        refine ⟨by show k < k + 1; omega, rfl, FP.lt_trans hB3 hc, ?_, ?_⟩
        · intro j hj
          rcases Nat.lt_succ_iff_lt_or_eq.mp hj with hlt | rfl
          · by_contra hcon
            have hcon' : FP.lt (tmp.getD (n * cnum + k) FP.nan)
                (tmp.getD (n * cnum + j) FP.nan) = true := by simpa using hcon
            have := FP.lt_trans hc hcon'
            rw [hB4 j hlt] at this
            exact Bool.false_ne_true this
          · exact FP.lt_irrefl _
        · intro j hj
          exact FP.lt_of_not_lt_of_lt (hnan j (by have : j < k := hj; omega))
            (hB4 j hj) hc
      · have hc' : FP.gt (tmp.getD (n * cnum + k) FP.nan)
            ((List.range k).foldl (deeplab_step tmp n) (FP.fin (-10000), 0)).1 = false := by
          simpa using hc
        rw [deeplab_step_neg tmp n _ k hc']
        refine ⟨by omega, hB2, hB3, ?_, hB5⟩
        intro j hj
        rcases Nat.lt_succ_iff_lt_or_eq.mp hj with hlt | rfl
        · exact hB4 j hlt
        · exact hc'

theorem isArgmax_unique (tmp : List FP) (n i j : Nat) (hi : IsArgmax tmp n i)
    (hj : IsArgmax tmp n j) : i = j := by
  rcases Nat.lt_trichotomy i j with h | h | h
  · exact absurd (hj.2.2 i h) (hi.2.1 j hj.1)
  · exact h
  · exact absurd (hi.2.2 j h) (hj.2.1 i hi.1)

/-- DeepLab decoding on a pixel without NaN scores at least one of which exceeds
-10000: the decision is 0 exactly when the argmax of the 21 scores is "person"
and 255 otherwise, and the byte written is `(decision & 0xE0) | (previous >> 3)`. -/
theorem deeplab_val_of_score_above (tmp : List FP) (n : Nat)
    (hnan : ∀ i, i < cnum → tmp.getD (n * cnum + i) FP.nan ≠ FP.nan)
    (habove : ∃ i, i < cnum ∧ FP.gt (tmp.getD (n * cnum + i) FP.nan) (FP.fin (-10000)) = true) :
    (deeplab_val tmp n = 0 ↔ IsArgmax tmp n pers) ∧
    (deeplab_val tmp n ≠ 0 → deeplab_val tmp n = 255) ∧
    (∀ (expf : FP → FP) (out : List Nat) (total : Nat), n < total → n < out.length →
      (decode expf modeltype_t.DeepLab tmp total out).getD n 0 =
        blend (deeplab_val tmp n) (out.getD n 0)) := by
  refine ⟨?_, ?_, fun expf out total hn hlen => writeLoop_getD_lt _ total out n hn hlen⟩
  on_goal 2 =>
    intro h
    unfold deeplab_val at h ⊢
    split_ifs at h ⊢ with hc
    · exact absurd rfl h
    · rfl
  have hinv := deeplab_scan_inv tmp n cnum hnan
  rcases hinv with ⟨hA, _⟩ | ⟨hB1, hB2, _, hB4, hB5⟩
  · obtain ⟨i, hi, hgt⟩ := habove
    rw [hA i hi] at hgt
    exact absurd hgt Bool.false_ne_true
  · have harg : IsArgmax tmp n (deeplab_scan tmp n).2 := by
      unfold deeplab_scan
      rw [ofInt_neg10000]
      refine ⟨hB1, ?_, ?_⟩
      · intro j hj
        rw [← hB2, hB4 j hj]
        exact Bool.false_ne_true
      · intro j hj
        rw [← hB2]
        exact hB5 j hj
    unfold deeplab_val
    constructor
    · intro h
      split_ifs at h with hc
      rw [← hc]; exact harg
    · intro h
      exact if_pos (isArgmax_unique tmp n _ _ harg h)

theorem low_scores_getD (i : Nat) (hi : i < 21) :
    low_scores.getD i FP.nan = if i = 15 then FP.fin (-15000) else FP.fin (-20000) := by
  unfold low_scores
  rw [List.getD_eq_getElem?_getD, List.getElem?_map, List.getElem?_range hi]
  rfl

/-! ### GoogleMeetSegmentation decoding -/

namespace FP

theorem lt_nan_left (z : FP) : lt nan z = false := by cases z <;> rfl

theorem lt_nan_right (z : FP) : lt z nan = false := by cases z <;> rfl

theorem lt_inf_false_left (z : FP) : lt (inf false) z = false := by
  cases z with
  | nan => rfl
  | inf s => cases s <;> rfl
  | nzero => rfl
  | fin q => rfl

theorem round_pos_cases (F : Format) {q : ℚ} (hq : 0 < q) :
    round F q = inf false ∨ (round F q = fin (roundMag F q) ∧ 0 ≤ roundMag F q) := by
  unfold round
  rw [abs_of_pos hq]
  by_cases hov : (2 : ℚ) ^ (F.emax + F.prec) ≤ roundMag F q
  · left
    rw [if_pos hov]
    simp [not_lt.mpr hq.le]
  · right
    rw [if_neg hov, if_neg (not_lt.mpr hq.le)]
    exact ⟨rfl, roundMag_nonneg F hq.le⟩

theorem lt_round_pos_zero (F : Format) {q : ℚ} (hq : 0 < q) :
    lt (round F q) (fin 0) = false ∧ lt (round F q) nzero = false := by
  rcases round_pos_cases F hq with h | ⟨h, h0⟩
  · rw [h]; exact ⟨rfl, rfl⟩
  · rw [h]
    simp only [lt, decide_eq_false_iff_not, not_lt]
    exact ⟨h0, h0⟩

/-- Rounding is monotone on positive arguments. -/
theorem round_mono_not_lt (F : Format) (hp : 1 ≤ F.prec) {x y : ℚ} (hx : 0 < x) (hxy : x ≤ y) :
    lt (round F y) (round F x) = false := by
  have hy : 0 < y := lt_of_lt_of_le hx hxy
  have hm := roundMag_mono F hp hx.le hxy
  unfold round
  rw [abs_of_pos hx, abs_of_pos hy]
  by_cases hov : (2 : ℚ) ^ (F.emax + F.prec) ≤ roundMag F y
  · rw [if_pos hov]
    simp only [not_lt.mpr hy.le, decide_False]
    exact lt_inf_false_left _
  · rw [if_neg hov, if_neg (not_lt.mpr hy.le),
      if_neg (not_le.mpr (lt_of_le_of_lt hm (not_le.mp hov))), if_neg (not_lt.mpr hx.le)]
    simp only [lt, decide_eq_false_iff_not, not_lt]
    exact hm

theorem round_zero (F : Format) : round F 0 = fin 0 := by
  unfold round
  simp only [abs_zero, roundMag_zero, lt_self_iff_false, if_false]
  rw [if_neg (not_le.mpr (two_zpow_pos _))]

theorem lt_zero_zero (a b : Bool) : lt (zero a) (zero b) = false := by
  cases a <;> cases b <;> simp [zero, lt]

theorem lt_round_pos_zero' (F : Format) {q : ℚ} (hq : 0 < q) (b : Bool) :
    lt (round F q) (zero b) = false := by
  cases b
  · exact (lt_round_pos_zero F hq).1
  · exact (lt_round_pos_zero F hq).2

end FP

/-- The softmax comparison cannot favour the smaller exponential: when
`e0`, `e1` are not negative and `e0 < e1` is false, `e0/(e0+e1) < e1/(e0+e1)`
is false as well. -/
theorem softmax_not_lt (F : FP.Format) (hp : 1 ≤ F.prec) (e0 e1 : FP)
    (h0 : FP.lt e0 (FP.fin 0) = false) (h1 : FP.lt e1 (FP.fin 0) = false)
    (h : FP.lt e0 e1 = false) :
    FP.lt (FP.div F e0 (FP.add F e0 e1)) (FP.div F e1 (FP.add F e0 e1)) = false := by
  cases e0 with
  | nan => simp [FP.add, FP.div, FP.lt]
  | inf s =>
    cases s with
    | true => simp [FP.lt] at h0
    | false =>
      cases e1 with
      | nan => simp [FP.add, FP.div, FP.lt]
      | inf t =>
        cases t with
        | true => simp [FP.lt] at h1
        | false => simp [FP.add, FP.div, FP.lt]
      | nzero => simp [FP.add, FP.div, FP.lt]
      | fin q => simp [FP.add, FP.div, FP.lt]
  | nzero =>
    cases e1 with
    | nan => simp [FP.add, FP.div, FP.lt]
    | inf t =>
      cases t with
      | true => simp [FP.lt] at h1
      | false => simp [FP.lt] at h
    | nzero => simp [FP.add, FP.div, FP.lt]
    | fin q =>
      have hq1 : ¬ q < 0 := by simpa [FP.lt] using h1
      have hq2 : ¬ 0 < q := by simpa [FP.lt] using h
      have hq : q = 0 := le_antisymm (not_lt.mp hq2) (not_lt.mp hq1)
      subst hq
      simp [FP.add, FP.div, FP.divFin, FP.round_zero, FP.lt]
  | fin p =>
    have hp0 : ¬ p < 0 := by simpa [FP.lt] using h0
    have hp0' : 0 ≤ p := not_lt.mp hp0
    cases e1 with
    | nan => simp [FP.add, FP.div, FP.lt]
    | inf t =>
      cases t with
      | true => simp [FP.lt] at h1
      | false => simp [FP.lt] at h
    | nzero =>
      show FP.lt (FP.div F (FP.fin p) (FP.round F p)) (FP.div F FP.nzero (FP.round F p)) = false
      rcases eq_or_lt_of_le hp0' with hz | hpos
      · rw [← hz, FP.round_zero]
        simp [FP.div, FP.divFin, FP.lt]
      · rcases FP.round_pos_cases F hpos with hS | ⟨hS, hr⟩
        · rw [hS]
          show FP.lt (FP.zero _) (FP.zero _) = false
          exact FP.lt_zero_zero _ _
        · rw [hS]
          show FP.lt (FP.divFin F _ _ p _) (FP.divFin F _ _ 0 _) = false
          unfold FP.divFin
          rcases eq_or_lt_of_le hr with hr0 | hrpos
          · rw [← hr0]
            simp only [if_true, if_neg hpos.ne']
            simp [hp0, FP.lt_inf_false_left]
          · rw [if_neg hrpos.ne', if_neg hrpos.ne', if_neg hpos.ne', if_pos rfl]
            exact FP.lt_round_pos_zero' F (div_pos hpos hrpos) _
    | fin q =>
      have hq0 : ¬ q < 0 := by simpa [FP.lt] using h1
      have hq0' : 0 ≤ q := not_lt.mp hq0
      have hqp : q ≤ p := by
        have : ¬ p < q := by simpa [FP.lt] using h
        exact not_lt.mp this
      show FP.lt (FP.div F (FP.fin p) (FP.round F (p + q)))
        (FP.div F (FP.fin q) (FP.round F (p + q))) = false
      rcases eq_or_lt_of_le (add_nonneg hp0' hq0') with hz | hpos
      · have hp00 : p = 0 := by linarith
        have hq00 : q = 0 := by linarith
        subst hp00 hq00
        simp [FP.div, FP.divFin, FP.round_zero, FP.lt]
      · rcases FP.round_pos_cases F hpos with hS | ⟨hS, hr⟩
        · rw [hS]
          show FP.lt (FP.zero _) (FP.zero _) = false
          exact FP.lt_zero_zero _ _
        · rw [hS]
          show FP.lt (FP.divFin F _ _ p _) (FP.divFin F _ _ q _) = false
          unfold FP.divFin
          rcases eq_or_lt_of_le hr with hr0 | hrpos
          · rw [← hr0]
            simp only [if_true]
            by_cases hpz : p = 0
            · rw [if_pos hpz]; exact FP.lt_nan_left _
            · rw [if_neg hpz]
              simp [hp0, FP.lt_inf_false_left]
          · rw [if_neg hrpos.ne', if_neg hrpos.ne']
            by_cases hqz : q = 0
            · rw [if_pos hqz]
              by_cases hpz : p = 0
              · rw [if_pos hpz]; exact FP.lt_zero_zero _ _
              · rw [if_neg hpz]
                exact FP.lt_round_pos_zero' F
                  (div_pos (lt_of_le_of_ne hp0' (Ne.symm hpz)) hrpos) _
            · have hqpos : 0 < q := lt_of_le_of_ne hq0' (Ne.symm hqz)
              have hppos : 0 < p := lt_of_lt_of_le hqpos hqp
              rw [if_neg hqz, if_neg hppos.ne']
              exact FP.round_mono_not_lt F hp (div_pos hqpos hrpos)
                (div_le_div_of_nonneg_right hqp hrpos.le)

theorem expf_step_nonneg (a : FP) : FP.lt (expf_step a) (FP.fin 0) = false := by
  cases a with
  | nan => rfl
  | inf s => cases s <;> simp [expf_step, FP.lt]
  | nzero => simp [expf_step, FP.lt]
  | fin q =>
    simp only [expf_step]
    split_ifs <;> simp [FP.lt]

theorem expf_step_mono (a b : FP) (h : FP.lt (expf_step a) (expf_step b) = true) :
    FP.lt a b = true := by
  cases a with
  | nan => simp [expf_step, FP.lt] at h
  | inf s =>
    cases s with
    | false => rw [show expf_step (FP.inf false) = FP.inf false from rfl,
        FP.lt_inf_false_left] at h; exact absurd h Bool.false_ne_true
    | true =>
      cases b with
      | nan => simp [expf_step, FP.lt_nan_right] at h
      | inf t =>
        cases t with
        | true => simp [expf_step, FP.lt] at h
        | false => rfl
      | nzero => rfl
      | fin q => rfl
  | nzero =>
    cases b with
    | nan => simp [expf_step, FP.lt_nan_right] at h
    | inf t =>
      cases t with
      | true => simp [expf_step, FP.lt] at h; norm_num at h
      | false => rfl
    | nzero => simp [expf_step, FP.lt] at h
    | fin q =>
      simp only [expf_step] at h
      split_ifs at h with h1 h2
      · simp [FP.lt] at h; norm_num at h
      · simp [FP.lt] at h
      · simp only [FP.lt, decide_eq_true_eq]
        exact lt_of_le_of_ne (not_lt.mp h1) (Ne.symm h2)
  | fin p =>
    cases b with
    | nan =>
      have : expf_step FP.nan = FP.nan := rfl
      rw [this, FP.lt_nan_right] at h
      exact absurd h Bool.false_ne_true
    | inf t =>
      cases t with
      | true =>
        simp only [expf_step] at h
        split_ifs at h <;> simp [FP.lt] at h <;> norm_num at h
      | false => rfl
    | nzero =>
      simp only [expf_step] at h
      split_ifs at h with h1 h2
      · simp only [FP.lt, decide_eq_true_eq]; exact h1
      · simp [FP.lt] at h
      · simp [FP.lt] at h
    | fin q =>
      simp only [expf_step] at h
      simp only [FP.lt, decide_eq_true_eq]
      split_ifs at h with h1 h2 h3 h4 h5 h6 h7 h8 <;> simp [FP.lt] at h <;>
        first
        | (norm_num at h; done)
        | (subst_vars; linarith)
        | linarith
        | (subst_vars; exact lt_of_le_of_ne (not_lt.mp ‹_›) (Ne.symm ‹_›))

/-- A foreground decision: with `expf_step` the logits `[-1, 1]` give
`p0 = fl(0.2) < p1 = fl(0.8)`. -/
theorem meet_decision_foreground_example :
    meet_decision expf_step (FP.fin (-1)) (FP.fin 1) = 0 := by
  have hs : FP.add FP.binary32 (FP.fin (1 / 2)) (FP.fin 2) = FP.fin (5 / 2) := by
    simp only [FP.add]
    have := FP.round_exact FP.binary32 5 (-1) (by norm_num [FP.binary32])
      (by norm_num [FP.binary32]) (by norm_num [FP.binary32])
    norm_num at this ⊢
    exact this
  have hp0 : FP.div FP.binary32 (FP.fin (1 / 2)) (FP.fin (5 / 2)) =
      FP.fin (13421773 / 2 ^ 26) := by
    simp only [FP.div, FP.divFin]
    rw [if_neg (by norm_num), if_neg (by norm_num)]
    rw [FP.round_eval FP.binary32 (-3) (-26) 13421773 (by norm_num) (by norm_num)
      (by norm_num [FP.binary32]) (by norm_num [abs_lt]) (by norm_num [FP.binary32])]
    norm_num
  have hp1 : FP.div FP.binary32 (FP.fin 2) (FP.fin (5 / 2)) =
      FP.fin (13421773 / 2 ^ 24) := by
    simp only [FP.div, FP.divFin]
    rw [if_neg (by norm_num), if_neg (by norm_num)]
    rw [FP.round_eval FP.binary32 (-1) (-24) 13421773 (by norm_num) (by norm_num)
      (by norm_num [FP.binary32]) (by norm_num [abs_lt]) (by norm_num [FP.binary32])]
    norm_num
  have e0 : expf_step (FP.fin (-1)) = FP.fin (1 / 2) := by
    simp only [expf_step]
    rw [if_pos (by norm_num)]
  have e1 : expf_step (FP.fin 1) = FP.fin 2 := by
    simp only [expf_step]
    rw [if_neg (by norm_num), if_neg (by norm_num)]
  unfold meet_decision
  rw [e0, e1, hs, hp0, hp1]
  simp only [FP.lt]
  norm_num

/-- An exponential that overflows decides for the background whatever the other
logit: `+∞ / (e0 + +∞)` is NaN. -/
theorem meet_decision_overflow (expf : FP → FP) (l0 l1 : FP)
    (h : expf l1 = FP.inf false) : meet_decision expf l0 l1 = 255 := by
  unfold meet_decision
  rw [h]
  have hs : FP.add FP.binary32 (expf l0) (FP.inf false) = FP.nan ∨
      FP.add FP.binary32 (expf l0) (FP.inf false) = FP.inf false := by
    cases expf l0 with
    | nan => left; rfl
    | inf s => cases s <;> simp [FP.add]
    | nzero => right; rfl
    | fin q => right; rfl
  have hd : FP.div FP.binary32 (FP.inf false)
      (FP.add FP.binary32 (expf l0) (FP.inf false)) = FP.nan := by
    rcases hs with hs | hs <;> rw [hs] <;> rfl
  rw [hd, FP.lt_nan_right]
  rfl

/-! ### ROI geometry -/

namespace FP

/-- A value between two representable magnitudes rounds to a value between them. -/
theorem round_sandwich (F : Format) (hp : 1 ≤ F.prec) {q a b : ℚ} (ha0 : 0 ≤ a) (haq : a ≤ q)
    (hqb : q ≤ b) (hA : roundMag F a = a) (hB : roundMag F b = b)
    (hov : b < (2 : ℚ) ^ (F.emax + F.prec)) :
    round F q = fin (roundMag F q) ∧ a ≤ roundMag F q ∧ roundMag F q ≤ b := by
  have hq0 : 0 ≤ q := ha0.trans haq
  have h1 : a ≤ roundMag F q := by
    have := roundMag_mono F hp ha0 haq
    rwa [hA] at this
  have h2 : roundMag F q ≤ b := by
    have := roundMag_mono F hp hq0 hqb
    rwa [hB] at this
  exact ⟨round_of_nonneg F hq0 (lt_of_le_of_lt h2 hov), h1, h2⟩

theorem roundMag32_natCast (n : ℕ) (hn : n < 2 ^ 24) :
    roundMag binary32 (n : ℚ) = (n : ℚ) := by
  have := roundMag_exact binary32 n 0 hn (by norm_num [binary32])
  simpa using this

theorem roundMag32_natCast_half (n : ℕ) (hn : n < 2 ^ 24) :
    roundMag binary32 ((n : ℚ) / 2) = (n : ℚ) / 2 := by
  have := roundMag_exact binary32 n (-1) hn (by norm_num [binary32])
  have e : (n : ℚ) * (2 : ℚ) ^ (-1 : ℤ) = (n : ℚ) / 2 := by
    rw [zpow_neg_one, div_eq_mul_inv]
  rwa [e] at this

theorem toInt?_fin_nonneg {q : ℚ} (h0 : 0 ≤ q) (h1 : q < 2 ^ 31) :
    toInt? (fin q) = some ⌊q⌋ := by
  have hf0 : (0 : ℤ) ≤ ⌊q⌋ := Int.floor_nonneg.mpr h0
  have hf1 : ⌊q⌋ < (2 : ℤ) ^ 31 := by
    rw [Int.floor_lt]
    exact_mod_cast h1
  simp only [toInt?, if_pos h0]
  rw [if_pos ⟨by omega, hf1⟩]

end FP

theorem ofInt32_two : FP.ofInt FP.binary32 2 = FP.fin 2 := by
  have := ofInt32_natCast 2 (by norm_num)
  simpa using this

theorem toInt_ok {x : FP} {n : ℤ} (h : FP.toInt? x = some n) : toInt x = Except.ok n := by
  unfold toInt
  rw [h]
  rfl

/-- The ROI for a frame width below 2^24 on which `height / ratio` is a positive
value `hv ≤ width`. -/
theorem make_roidim_of_fin (W H : ℕ) (ratio : FP) (hv : ℚ) (hW : W < 2 ^ 24)
    (hh : FP.div FP.binary32 (FP.ofInt FP.binary32 (H : ℤ)) ratio = FP.fin hv)
    (hpos : 0 < hv) (hle : hv ≤ (W : ℚ)) :
    ∃ x : ℤ, make_roidim W H ratio = Except.ok ⟨x, 0, ⌊hv⌋, (H : ℤ)⟩ ∧ 0 ≤ x ∧
      2 * x + ⌊hv⌋ ≤ (W : ℤ) ∧ (W : ℤ) - 2 ≤ 2 * x + ⌊hv⌋ := by
  have hp32 : 1 ≤ FP.binary32.prec := by norm_num [FP.binary32]
  have hWq : (W : ℚ) < 2 ^ 24 := by exact_mod_cast hW
  have hov32 : ∀ b : ℚ, b ≤ (W : ℚ) → b < (2 : ℚ) ^ (FP.binary32.emax + FP.binary32.prec) := by
    intro b hb
    have : (2 : ℚ) ^ 24 ≤ (2 : ℚ) ^ (FP.binary32.emax + FP.binary32.prec) := by
      norm_num [FP.binary32]
    linarith
  -- the integer parts of `hv`
  have hj0 : (0 : ℤ) ≤ ⌊hv⌋ := Int.floor_nonneg.mpr hpos.le
  have hjle : (⌊hv⌋ : ℚ) ≤ hv := Int.floor_le hv
  have hkge : hv ≤ (⌈hv⌉ : ℚ) := Int.le_ceil hv
  have hkj : ⌈hv⌉ ≤ ⌊hv⌋ + 1 := Int.ceil_le_floor_add_one hv
  have hkW : ⌈hv⌉ ≤ (W : ℤ) := by
    rw [Int.ceil_le]
    exact_mod_cast hle
  have hk0 : (0 : ℤ) ≤ ⌈hv⌉ := (Int.ceil_pos.mpr hpos).le
  -- the representable bounds `a = W - ⌈hv⌉` and `b = W - ⌊hv⌋`
  obtain ⟨a, ha⟩ : ∃ a : ℕ, (a : ℤ) = (W : ℤ) - ⌈hv⌉ := ⟨((W : ℤ) - ⌈hv⌉).toNat, by omega⟩
  obtain ⟨b, hb⟩ : ∃ b : ℕ, (b : ℤ) = (W : ℤ) - ⌊hv⌋ :=
    ⟨((W : ℤ) - ⌊hv⌋).toNat, by
      have : ⌊hv⌋ ≤ (W : ℤ) := (Int.floor_le_ceil hv).trans hkW
      omega⟩
  have haW : a < 2 ^ 24 := by omega
  have hbW : b < 2 ^ 24 := by omega
  have haq : (a : ℚ) = (W : ℚ) - (⌈hv⌉ : ℚ) := by exact_mod_cast ha
  have hbq : (b : ℚ) = (W : ℚ) - (⌊hv⌋ : ℚ) := by exact_mod_cast hb
  -- the subtraction
  have hsub : FP.sub FP.binary32 (FP.ofInt FP.binary32 (W : ℤ)) (FP.fin hv) =
      FP.round FP.binary32 ((W : ℚ) - hv) := by
    rw [ofInt32_natCast W hW]
    simp only [FP.sub, FP.neg, if_neg hpos.ne', FP.add]
    rw [sub_eq_add_neg]
  obtain ⟨hd, hd1, hd2⟩ := FP.round_sandwich FP.binary32 hp32 (q := (W : ℚ) - hv)
    (a := (a : ℚ)) (b := (b : ℚ)) (Nat.cast_nonneg a) (by rw [haq]; linarith)
    (by rw [hbq]; linarith) (FP.roundMag32_natCast a haW) (FP.roundMag32_natCast b hbW)
    (hov32 _ (by rw [hbq]; have : (0 : ℚ) ≤ (⌊hv⌋ : ℚ) := by exact_mod_cast hj0
                 linarith))
  set d := FP.roundMag FP.binary32 ((W : ℚ) - hv) with hd_def
  have hd0 : 0 ≤ d := (Nat.cast_nonneg a).trans hd1
  -- the halving
  have hhalf : ∃ xr : ℚ, FP.div FP.binary32 (FP.fin d) (FP.fin 2) = FP.fin xr ∧
      (a : ℚ) / 2 ≤ xr ∧ xr ≤ (b : ℚ) / 2 := by
    rcases eq_or_lt_of_le hd0 with hz | hdpos
    · refine ⟨0, ?_, ?_, ?_⟩
      · rw [← hz]
        simp [FP.div, FP.divFin, FP.zero]
      · have : (a : ℚ) ≤ 0 := by rw [hz]; exact hd1
        linarith
      · have : (0 : ℚ) ≤ (b : ℚ) := Nat.cast_nonneg b
        linarith
    · obtain ⟨hx, hx1, hx2⟩ := FP.round_sandwich FP.binary32 hp32 (q := d / 2)
        (a := (a : ℚ) / 2) (b := (b : ℚ) / 2) (by positivity) (by linarith) (by linarith)
        (FP.roundMag32_natCast_half a haW) (FP.roundMag32_natCast_half b hbW)
        (hov32 _ (by rw [hbq]; have : (0 : ℚ) ≤ (⌊hv⌋ : ℚ) := by exact_mod_cast hj0
                     have : (0 : ℚ) ≤ (b : ℚ) := Nat.cast_nonneg b
                     linarith))
      refine ⟨_, ?_, hx1, hx2⟩
      have hdn : ¬ d < 0 := not_lt.mpr hd0
      simp only [FP.div, FP.divFin]
      rw [if_neg (by norm_num), if_neg hdpos.ne', hx]
  obtain ⟨xr, hxr, hxr1, hxr2⟩ := hhalf
  have hxr0 : 0 ≤ xr := le_trans (by positivity) hxr1
  have hxrW : xr < 2 ^ 31 := by
    have : (b : ℚ) < 2 ^ 24 := by exact_mod_cast hbW
    linarith
  have hx_int : FP.toInt? (FP.fin xr) = some ⌊xr⌋ := FP.toInt?_fin_nonneg hxr0 hxrW
  have hw_int : FP.toInt? (FP.fin hv) = some ⌊hv⌋ :=
    FP.toInt?_fin_nonneg hpos.le (by linarith)
  refine ⟨⌊xr⌋, ?_, Int.floor_nonneg.mpr hxr0, ?_, ?_⟩
  · unfold make_roidim
    rw [hh, hsub, hd, ofInt32_two, hxr, toInt_ok hx_int, toInt_ok hw_int]
    rfl
  · -- 2 * ⌊xr⌋ ≤ 2 * xr ≤ b = W - ⌊hv⌋
    have h1 : (⌊xr⌋ : ℚ) ≤ xr := Int.floor_le xr
    have h2 : (2 * ⌊xr⌋ + ⌊hv⌋ : ℚ) ≤ (W : ℚ) := by rw [hbq] at hxr2; linarith
    exact_mod_cast h2
  · -- 2 * ⌊xr⌋ > 2 * xr - 2 ≥ a - 2 = W - ⌈hv⌉ - 2
    have h1 : xr < (⌊xr⌋ : ℚ) + 1 := Int.lt_floor_add_one xr
    have h2 : (W : ℚ) - (⌈hv⌉ : ℚ) - 2 < 2 * (⌊xr⌋ : ℚ) := by rw [haq] at hxr1; linarith
    have h3 : (W : ℤ) - ⌈hv⌉ - 2 < 2 * ⌊xr⌋ := by exact_mod_cast h2
    omega

theorem round32_natCast (n : ℕ) (hn : n < 2 ^ 24) :
    FP.round FP.binary32 (n : ℚ) = FP.fin (n : ℚ) := by
  have := ofInt32_natCast n hn
  simpa [FP.ofInt] using this

theorem input_ratio_square : input_ratio 257 257 = FP.fin 1 := by
  have h257 : FP.ofInt FP.binary32 257 = FP.fin 257 := by
    have := ofInt32_natCast 257 (by norm_num)
    simpa using this
  have h1 : FP.round FP.binary32 1 = FP.fin 1 := by
    have := round32_natCast 1 (by norm_num)
    simpa using this
  unfold input_ratio
  rw [h257]
  simp only [FP.div, FP.divFin]
  norm_num
  exact h1

theorem div32_ofInt_one (n : ℕ) (hn0 : 0 < n) (hn : n < 2 ^ 24) :
    FP.div FP.binary32 (FP.ofInt FP.binary32 (n : ℤ)) (FP.fin 1) = FP.fin (n : ℚ) := by
  rw [ofInt32_natCast n hn]
  have hq : (n : ℚ) ≠ 0 := by exact_mod_cast hn0.ne'
  simp only [FP.div, FP.divFin]
  rw [if_neg (by norm_num), if_neg hq, div_one]
  exact round32_natCast n hn

/-- What `make_roidim` returns, whenever it returns. -/
theorem make_roidim_fields (W H : ℕ) (ratio : FP) (r : Rect)
    (h : make_roidim W H ratio = Except.ok r) :
    r.y = 0 ∧ r.height = (H : ℤ) ∧
    FP.toInt? (FP.div FP.binary32 (FP.ofInt FP.binary32 (H : ℤ)) ratio) = some r.width ∧
    FP.toInt? (FP.div FP.binary32
      (FP.sub FP.binary32 (FP.ofInt FP.binary32 (W : ℤ))
        (FP.div FP.binary32 (FP.ofInt FP.binary32 (H : ℤ)) ratio))
      (FP.ofInt FP.binary32 2)) = some r.x ∧
    upsample_size (H : ℤ) ratio = Except.ok ⟨r.width, r.height⟩ := by
  unfold make_roidim toInt at h
  unfold upsample_size toInt
  cases h1 : FP.toInt? (FP.div FP.binary32
      (FP.sub FP.binary32 (FP.ofInt FP.binary32 (W : ℤ))
        (FP.div FP.binary32 (FP.ofInt FP.binary32 (H : ℤ)) ratio))
      (FP.ofInt FP.binary32 2)) with
  | none => rw [h1] at h; cases h
  | some x =>
    cases h2 : FP.toInt? (FP.div FP.binary32 (FP.ofInt FP.binary32 (H : ℤ)) ratio) with
    | none => rw [h1, h2] at h; cases h
    | some w =>
      rw [h1, h2] at h
      have hr : r = ⟨x, 0, w, (H : ℤ)⟩ := by
        have : (Except.ok ⟨x, 0, w, (H : ℤ)⟩ : Except Fault Rect) = Except.ok r := h
        injection this with this
        exact this.symm
      subst hr
      exact ⟨rfl, rfl, rfl, rfl, rfl⟩

theorem toInt?_natCast (n : ℕ) (hn : n < 2 ^ 31) :
    FP.toInt? (FP.fin (n : ℚ)) = some (n : ℤ) := by
  have h1 : ((n : ℚ)) < 2 ^ 31 := by exact_mod_cast hn
  rw [FP.toInt?_fin_nonneg (Nat.cast_nonneg n) h1, Int.floor_natCast]

theorem make_roidim_wide :
    make_roidim 134217733 1 (input_ratio 257 257) = Except.ok ⟨67108864, 0, 1, 1⟩ := by
  have hW : FP.ofInt FP.binary32 ((134217733 : ℕ) : ℤ) = FP.fin 134217728 := by
    unfold FP.ofInt
    have := FP.round_eval FP.binary32 (a := 134217733) 27 4 8388608 (by norm_num) (by norm_num)
      (by norm_num [FP.binary32]) (by norm_num [abs_lt]) (by norm_num [FP.binary32])
    norm_num at this ⊢
    exact this
  have hh : FP.div FP.binary32 (FP.ofInt FP.binary32 ((1 : ℕ) : ℤ)) (FP.fin 1) = FP.fin 1 := by
    have := div32_ofInt_one 1 (by norm_num) (by norm_num)
    simpa using this
  have hsub : FP.sub FP.binary32 (FP.fin 134217728) (FP.fin 1) = FP.fin 134217728 := by
    simp only [FP.sub, FP.neg, FP.add]
    rw [if_neg (by norm_num)]
    have := FP.round_eval FP.binary32 (a := 134217727) 26 3 16777216 (by norm_num)
      (by norm_num) (by norm_num [FP.binary32]) (by norm_num [abs_lt])
      (by norm_num [FP.binary32])
    norm_num at this ⊢
    exact this
  have hdiv : FP.div FP.binary32 (FP.fin 134217728) (FP.fin 2) = FP.fin 67108864 := by
    simp only [FP.div, FP.divFin]
    rw [if_neg (by norm_num), if_neg (by norm_num)]
    have := FP.round_exact FP.binary32 8388608 3 (by norm_num [FP.binary32])
      (by norm_num [FP.binary32]) (by norm_num [FP.binary32])
    norm_num at this ⊢
    exact this
  have hx : FP.toInt? (FP.fin 67108864) = some 67108864 := by
    have := toInt?_natCast 67108864 (by norm_num)
    simpa using this
  have hw : FP.toInt? (FP.fin 1) = some 1 := by
    have := toInt?_natCast 1 (by norm_num)
    simpa using this
  unfold make_roidim
  rw [input_ratio_square, hW, hh, hsub, ofInt32_two, hdiv, toInt_ok hx, toInt_ok hw]
  rfl

/-! ### Session life cycle -/

theorem Mat.deallocate_empty {α : Type} : (Mat.empty : Mat α).deallocate = Mat.empty := rfl

theorem Mat.deallocate_idem {α : Type} (m : Mat α) : m.deallocate.deallocate = m.deallocate :=
  rfl

/-- Tear-down keeps the headers: the matrices lose their buffer handle, their
dimensions and data pointers stay. -/
theorem drop_tensorflow_headers (info : calcinfo_t) :
    (drop_tensorflow info).mask = { info.mask with owner := false } ∧
    (drop_tensorflow info).ofinal = { info.ofinal with owner := false } ∧
    (drop_tensorflow info).input = { info.input with owner := false } ∧
    (drop_tensorflow info).output = { info.output with owner := false } := by
  obtain ⟨modelname, threads, width, height, debug, raw, input, output, roidim, mask, mroi,
    ofinal, blur, ratio, ctx⟩ := info
  cases ctx <;> exact ⟨rfl, rfl, rfl, rfl⟩

theorem drop_tensorflow_idem (info : calcinfo_t) :
    drop_tensorflow (drop_tensorflow info) = drop_tensorflow info ∧
    (drop_tensorflow info).backscrub_ctx = none := by
  obtain ⟨modelname, threads, width, height, debug, raw, input, output, roidim, mask, mroi,
    ofinal, blur, ratio, ctx⟩ := info
  cases ctx <;> exact ⟨rfl, rfl⟩

theorem init_twice (env : Env) (g1 g2 : List Nat) (info : calcinfo_t) (hf : IsFresh info) :
    (init_tensorflow env g1 info).bind (fun p => init_tensorflow env g2 p.2) =
      init_tensorflow env g2 info := by
  obtain ⟨modelname, threads, width, height, debug, raw, input, output, roidim, mask, mroi,
    ofinal, blur, ratio, ctx⟩ := info
  obtain ⟨h1, h2, h3, h4, h5⟩ := hf
  simp only at h1 h2 h3 h4 h5
  subst h1 h2 h3 h4 h5
  unfold init_tensorflow
  simp only [Option.isSome_none, Bool.false_eq_true, if_false]
  cases hb : env.BuildFromFile modelname with
  | none => rfl
  | some model =>
    simp only []
    by_cases hu : get_modeltype modelname = modeltype_t.Unknown
    · simp [hu, Except.bind, pure, Except.pure, drop_tensorflow, hb, Mat.deallocate_empty]
    · simp only [hu, if_false]
      cases hm : model.build with
      | none => rfl
      | some interp =>
        simp only []
        cases ha : interp.allocateOk with
        | false => rfl
        | true =>
          cases hi : getTensorMat interp.input with
          | error e => simp [TFLITE_MINIMAL_CHECK, bind, Except.bind, pure, Except.pure]
          | ok inp =>
            cases ho : getTensorMat interp.output with
            | error e => simp [TFLITE_MINIMAL_CHECK, bind, Except.bind, pure, Except.pure]
            | ok outp =>
              cases hr : make_roidim width height (input_ratio inp.cols inp.rows) with
              | error e =>
                simp [TFLITE_MINIMAL_CHECK, hr, bind, Except.bind, pure, Except.pure]
              | ok r =>
                simp [TFLITE_MINIMAL_CHECK, hr, hb, hu, hm, ha, hi, ho, bind, Except.bind, pure,
                  Except.pure, drop_tensorflow, Mat.deallocate]

theorem get_modeltype_sample : get_modeltype "mymodel.tflite" = modeltype_t.Unknown := by
  decide

theorem get_modeltype_selfie : get_modeltype "selfie.tflite" = modeltype_t.MLKitSelfie := by
  decide

/-- What `init_tensorflow` does with an unrecognized model whose file loads. -/
theorem init_tensorflow_unknown (env : Env) (g : List Nat) (info : calcinfo_t) (model : Model)
    (hu : get_modeltype info.modelname = modeltype_t.Unknown)
    (hb : env.BuildFromFile info.modelname = some model) :
    init_tensorflow env g info = Except.ok (0,
      { (if info.backscrub_ctx.isSome then drop_tensorflow info else info) with
        backscrub_ctx := some ⟨some model, none, modeltype_t.Unknown,
          get_normalization modeltype_t.Unknown⟩ }) := by
  obtain ⟨modelname, threads, width, height, debug, raw, input, output, roidim, mask, mroi,
    ofinal, blur, ratio, ctx⟩ := info
  simp only at hu hb
  unfold init_tensorflow
  cases ctx with
  | none =>
    simp [hb, hu, pure, Except.pure]
  | some c =>
    simp [hb, hu, pure, Except.pure, drop_tensorflow]

/-- What `init_tensorflow` returns for a recognized model, whenever it returns. -/
theorem init_tensorflow_recognized (env : Env) (g : List Nat) (info : calcinfo_t) (r : ℤ)
    (s : calcinfo_t) (hu : get_modeltype info.modelname ≠ modeltype_t.Unknown)
    (h : init_tensorflow env g info = Except.ok (r, s)) :
    r = 1 ∧
    (∃ model interpreter, s.backscrub_ctx =
      some ⟨some model, some interpreter, get_modeltype info.modelname,
        get_normalization (get_modeltype info.modelname)⟩) ∧
    s.mask = ⟨info.height, info.width, 1, List.replicate (info.height * info.width) 255, true⟩ ∧
    s.mroi = some s.roidim ∧
    make_roidim info.width info.height s.ratio = Except.ok s.roidim := by
  obtain ⟨modelname, threads, width, height, debug, raw, input, output, roidim, mask, mroi,
    ofinal, blur, ratio, ctx⟩ := info
  simp only at hu
  have key : ∀ ctx' input' output' mask' ofinal',
      init_tensorflow env g ⟨modelname, threads, width, height, debug, raw, input', output',
        roidim, mask', mroi, ofinal', blur, ratio, ctx'⟩ = Except.ok (r, s) →
      ctx' = none →
      r = 1 ∧
      (∃ model interpreter, s.backscrub_ctx =
        some ⟨some model, some interpreter, get_modeltype modelname,
          get_normalization (get_modeltype modelname)⟩) ∧
      s.mask = ⟨height, width, 1, List.replicate (height * width) 255, true⟩ ∧
      s.mroi = some s.roidim ∧
      make_roidim width height s.ratio = Except.ok s.roidim := by
    intro ctx' input' output' mask' ofinal' h hc
    subst hc
    unfold init_tensorflow at h
    simp only [Option.isSome_none, Bool.false_eq_true, if_false] at h
    cases hb : env.BuildFromFile modelname with
    | none => rw [hb] at h; cases h
    | some model =>
      rw [hb] at h
      simp only [hu, if_false] at h
      cases hm : model.build with
      | none => rw [hm] at h; cases h
      | some interp =>
        rw [hm] at h
        simp only [] at h
        cases ha : interp.allocateOk with
        | false =>
          simp [TFLITE_MINIMAL_CHECK, ha, bind, Except.bind, throw, throwThe,
            MonadExceptOf.throw] at h
        | true =>
          cases hi : getTensorMat interp.input with
          | error e =>
            simp [TFLITE_MINIMAL_CHECK, ha, hi, bind, Except.bind, pure, Except.pure] at h
          | ok inp =>
            cases ho : getTensorMat interp.output with
            | error e =>
              simp [TFLITE_MINIMAL_CHECK, ha, hi, ho, bind, Except.bind, pure, Except.pure] at h
            | ok outp =>
              cases hr : make_roidim width height (input_ratio inp.cols inp.rows) with
              | error e =>
                simp [TFLITE_MINIMAL_CHECK, ha, hi, ho, hr, bind, Except.bind, pure,
                  Except.pure] at h
              | ok rd =>
                simp [TFLITE_MINIMAL_CHECK, ha, hi, ho, hr, bind, Except.bind, pure,
                  Except.pure] at h
                obtain ⟨h1, h2⟩ := h
                subst h2
                exact ⟨h1.symm, ⟨model, interp, rfl⟩, rfl, rfl, hr⟩
  cases ctx with
  | none => exact key none input output mask ofinal h rfl
  | some c =>
    have h' : init_tensorflow env g ⟨modelname, threads, width, height, debug, raw,
        input.deallocate, output.deallocate, roidim, mask.deallocate, mroi,
        ofinal.deallocate, blur, ratio, none⟩ = Except.ok (r, s) := by
      rw [← h]
      unfold init_tensorflow
      simp [drop_tensorflow, Mat.deallocate]
    exact key none _ _ _ _ h' rfl

theorem calc_mask_no_interpreter (env : Env) (info : calcinfo_t) (c : backscrub_ctx_t)
    (hc : info.backscrub_ctx = some c) (hi : c.interpreter = none) :
    calc_mask env info = Except.error Fault.nullInterpreter := by
  unfold calc_mask
  rw [hc]
  simp only [hi]
  rfl

theorem sample_info_fresh (name : String) : IsFresh (sample_info name) :=
  ⟨rfl, rfl, rfl, rfl, rfl⟩

/-- With the family `Unknown`, a call of `calc_mask` that returns leaves the
low-res working mask as it was. -/
theorem calc_mask_unknown_ofinal (env : Env) (info : calcinfo_t) (c : backscrub_ctx_t)
    (r : ℤ) (s : calcinfo_t) (hc : info.backscrub_ctx = some c)
    (hu : c.modeltype = modeltype_t.Unknown) (h : calc_mask env info = Except.ok (r, s)) :
    s.ofinal = info.ofinal := by
  unfold calc_mask at h
  rw [hc] at h
  simp only [] at h
  cases hi : c.interpreter with
  | none => rw [hi] at h; cases h
  | some interp =>
    rw [hi] at h
    simp only [] at h
    cases hv : interp.invoke
        (env.convertTo (env.bilateralFilter (env.cvtColor
          (env.resize (env.crop info.raw info.roidim) ⟨info.input.cols, info.input.rows⟩)))
          c.norm.scaling c.norm.offset) with
    | none => rw [hv] at h; cases h
    | some result =>
      rw [hv] at h
      simp only [hu, decode] at h
      cases hs : upsample_size info.raw.rows info.ratio with
      | error e => rw [hs] at h; cases h
      | ok size =>
        rw [hs] at h
        simp only [] at h
        cases hm : info.mroi with
        | none =>
          rw [hm] at h
          simp only [pure, Except.pure] at h
          injection h with h
          injection h with h1 h2
          rw [← h2]
        | some rect =>
          rw [hm] at h
          simp only [pure, Except.pure] at h
          split_ifs at h with hsz
          · injection h with h
            injection h with h1 h2
            rw [← h2]
          · injection h with h
            injection h with h1 h2
            rw [← h2]

/-- The result of `init_tensorflow` depends on the contents of the freshly
allocated low-res working mask only through those contents. -/
theorem init_garbage_irrelevant (env : Env) (g g' : List Nat) (info : calcinfo_t) :
    Except.map (fun p => (p.1, forget_ofinal p.2)) (init_tensorflow env g info) =
      Except.map (fun p => (p.1, forget_ofinal p.2)) (init_tensorflow env g' info) := by
  unfold init_tensorflow
  simp only []
  generalize (if info.backscrub_ctx.isSome then drop_tensorflow info else info) = p
  cases hb : env.BuildFromFile p.modelname with
  | none => rfl
  | some model =>
    simp only []
    by_cases hu : get_modeltype p.modelname = modeltype_t.Unknown
    · simp only [hu, if_true]
    · simp only [hu, if_false]
      cases hm : model.build with
      | none => rfl
      | some interp =>
        simp only []
        cases ha : interp.allocateOk with
        | false => rfl
        | true =>
          cases hi : getTensorMat interp.input with
          | error e => simp [TFLITE_MINIMAL_CHECK, bind, Except.bind, pure, Except.pure]
          | ok inp =>
            cases ho : getTensorMat interp.output with
            | error e => simp [TFLITE_MINIMAL_CHECK, bind, Except.bind, pure, Except.pure]
            | ok outp =>
              cases hr : make_roidim p.width p.height (input_ratio inp.cols inp.rows) with
              | error e =>
                simp [TFLITE_MINIMAL_CHECK, hr, bind, Except.bind, pure, Except.pure,
                  Except.map]
              | ok r =>
                simp [TFLITE_MINIMAL_CHECK, hr, bind, Except.bind, pure, Except.pure,
                  Except.map, forget_ofinal]

theorem input_ratio_self (n : ℕ) (hn0 : 0 < n) (hn : n < 2 ^ 24) :
    input_ratio (n : ℤ) (n : ℤ) = FP.fin 1 := by
  have hq : (n : ℚ) ≠ 0 := by exact_mod_cast hn0.ne'
  have h1 : FP.round FP.binary32 1 = FP.fin 1 := by
    have := round32_natCast 1 (by norm_num)
    simpa using this
  unfold input_ratio
  rw [ofInt32_natCast n hn]
  simp only [FP.div, FP.divFin]
  rw [if_neg hq, if_neg hq, div_self hq]
  exact h1

theorem sample_init_ok (g : List Nat) :
    ∃ s : calcinfo_t,
      init_tensorflow sample_env g (sample_info "selfie.tflite") = Except.ok (1, s) := by
  have hr1 : input_ratio 2 2 = FP.fin 1 := by
    have := input_ratio_self 2 (by norm_num) (by norm_num)
    simpa using this
  have hh : FP.div FP.binary32 (FP.ofInt FP.binary32 ((2 : ℕ) : ℤ)) (input_ratio 2 2) =
      FP.fin 2 := by
    rw [hr1]
    have := div32_ofInt_one 2 (by norm_num) (by norm_num)
    simpa using this
  obtain ⟨x, hx, _⟩ := make_roidim_of_fin 4 2 (input_ratio 2 2) 2 (by norm_num) hh
    (by norm_num) (by norm_num)
  unfold init_tensorflow
  simp only [sample_info, sample_env, sample_interpreter, Option.isSome_none,
    Bool.false_eq_true, if_false, get_modeltype_selfie]
  simp [TFLITE_MINIMAL_CHECK, getTensorMat, bind, Except.bind, pure, Except.pure, hx]

/-! ## The claims -/

/-! ### C1: DeepLab decoding -/

/-- C1 at a failing input: on the one-pixel tensor `low_scores` the argmax of the
21 scores is "person" (index 15), yet the decision is 255 and the byte written
over a previous 0 is the background byte `blend 255 0`. -/
theorem deeplab_sentinel_failure :
    IsArgmax low_scores 0 pers ∧ deeplab_val low_scores 0 = 255 ∧
    (decode (fun x => x) modeltype_t.DeepLab low_scores 1 [0]).getD 0 0 = blend 255 0 := by
  have hval : deeplab_val low_scores 0 = 255 := by
    apply deeplab_val_sentinel
    intro i hi
    rw [cnum_eq] at hi
    rw [cnum_eq, Nat.zero_mul, Nat.zero_add, low_scores_getD i hi]
    split_ifs <;> simp [FP.gt, FP.lt] <;> norm_num
  refine ⟨⟨by decide, ?_, ?_⟩, hval, ?_⟩
  · intro j hj
    rw [cnum_eq] at hj
    rw [cnum_eq, Nat.zero_mul, Nat.zero_add, Nat.zero_add, pers_eq,
      low_scores_getD 15 (by norm_num), low_scores_getD j hj, if_pos rfl]
    split_ifs
    · simp [FP.lt]
    · simp [FP.lt]
      norm_num
  · intro j hj
    rw [pers_eq] at hj
    rw [cnum_eq, Nat.zero_mul, Nat.zero_add, Nat.zero_add, pers_eq,
      low_scores_getD 15 (by norm_num), low_scores_getD j (by omega), if_pos rfl]
    rw [if_neg (by omega)]
    simp [FP.lt]
    norm_num
  · have h := writeLoop_getD_lt (deeplab_val low_scores) 1 [0] 0 (by decide) (by decide)
    unfold decode
    rw [h, hval]
    rfl

/-! ### C2: BodyPix and MLKitSelfie decoding -/

/-- C2: BodyPix / MLKitSelfie decoding.  For every output tensor of `float`s and
every pixel `n`, the byte written is `(decision & 0xE0) | (previous >> 3)` where the
decision is 0 exactly when the pixel's probability is strictly greater than 0.65
and 255 otherwise; the `float`s nearest to 0.65, 0.70, 0.10 and 0.6500001 give
255, 0, 255 and 0. -/
theorem threshold_decoding (expf : FP → FP) (tmp : List FP) (out : List Nat) (total n : Nat)
    (hn : n < total) (hlen : n < out.length)
    (hv : FP.IsValue FP.binary32 (tmp.getD n FP.nan)) :
    ((decode expf modeltype_t.BodyPix tmp total out).getD n 0 =
        blend (threshold_val tmp n) (out.getD n 0) ∧
     (decode expf modeltype_t.MLKitSelfie tmp total out).getD n 0 =
        blend (threshold_val tmp n) (out.getD n 0)) ∧
    (threshold_val tmp n = 0 ↔ FP.Exceeds (tmp.getD n FP.nan) (65 / 100)) ∧
    (threshold_val tmp n ≠ 0 → threshold_val tmp n = 255) ∧
    (threshold_val [FP.round FP.binary32 (65 / 100)] 0 = 255 ∧
     threshold_val [FP.round FP.binary32 (70 / 100)] 0 = 0 ∧
     threshold_val [FP.round FP.binary32 (10 / 100)] 0 = 255 ∧
     threshold_val [FP.round FP.binary32 (6500001 / 10000000)] 0 = 0) := by
  refine ⟨⟨?_, ?_⟩, threshold_val_eq_zero_iff tmp n hv, ?_, ?_, ?_, ?_, ?_⟩
  · exact writeLoop_getD_lt _ total out n hn hlen
  · exact writeLoop_getD_lt _ total out n hn hlen
  · intro h
    unfold threshold_val at h ⊢
    split_ifs at h ⊢ with hc
    · exact absurd rfl h
    · rfl
  · have hval : FP.IsValue FP.binary32 ([FP.round FP.binary32 (65 / 100)].getD 0 FP.nan) := by
      rw [round32_065]
      exact isValue32_of_nat_div 10905190 24 (by norm_num) (by norm_num)
    have hiff := threshold_val_eq_zero_iff _ 0 hval
    have hne : threshold_val [FP.round FP.binary32 (65 / 100)] 0 ≠ 0 := by
      rw [Ne, hiff, round32_065]
      simp only [List.getD_cons_zero, FP.Exceeds]
      norm_num
    unfold threshold_val at hne ⊢
    split_ifs at hne ⊢ with hc
    · exact absurd rfl hne
    · rfl
  · have hval : FP.IsValue FP.binary32 ([FP.round FP.binary32 (70 / 100)].getD 0 FP.nan) := by
      rw [round32_070]
      exact isValue32_of_nat_div 11744051 24 (by norm_num) (by norm_num)
    rw [threshold_val_eq_zero_iff _ 0 hval, round32_070]
    simp only [List.getD_cons_zero, FP.Exceeds]
    norm_num
  · have hval : FP.IsValue FP.binary32 ([FP.round FP.binary32 (10 / 100)].getD 0 FP.nan) := by
      rw [round32_010]
      exact isValue32_of_nat_div 13421773 27 (by norm_num) (by norm_num)
    have hiff := threshold_val_eq_zero_iff _ 0 hval
    have hne : threshold_val [FP.round FP.binary32 (10 / 100)] 0 ≠ 0 := by
      rw [Ne, hiff, round32_010]
      simp only [List.getD_cons_zero, FP.Exceeds]
      norm_num
    unfold threshold_val at hne ⊢
    split_ifs at hne ⊢ with hc
    · exact absurd rfl hne
    · rfl
  · have hval : FP.IsValue FP.binary32
        ([FP.round FP.binary32 (6500001 / 10000000)].getD 0 FP.nan) := by
      rw [round32_0650001]
      exact isValue32_of_nat_div 10905192 24 (by norm_num) (by norm_num)
    rw [threshold_val_eq_zero_iff _ 0 hval, round32_0650001]
    simp only [List.getD_cons_zero, FP.Exceeds]
    norm_num

theorem threshold_decoding_witness :
    (0 < 2 ∧ 0 < [200, 7].length ∧
      FP.IsValue FP.binary32 (sample_probs.getD 0 FP.nan)) ∧
    threshold_val sample_probs 0 = 0 ∧
    (decode (fun x => x) modeltype_t.BodyPix sample_probs 2 [200, 7]).getD 0 0 =
      blend 0 200 := by
  have hv : FP.IsValue FP.binary32 (sample_probs.getD 0 FP.nan) :=
    isValue32_of_nat_div 11744051 24 (by norm_num) (by norm_num)
  have h := threshold_decoding (fun x => x) sample_probs [200, 7] 2 0 (by decide) (by decide) hv
  have h0 : threshold_val sample_probs 0 = 0 := by
    rw [h.2.1]
    simp only [sample_probs, List.getD_cons_zero, FP.Exceeds]
    norm_num
  refine ⟨⟨by decide, by decide, hv⟩, h0, ?_⟩
  rw [h.1.1, h0]
  rfl

/-! ### C3: GoogleMeetSegmentation decoding -/

/-- C3: GoogleMeetSegmentation decoding.  The byte written is
`(decision & 0xE0) | (previous >> 3)`; the decision is 0 exactly when the computed
softmax of the foreground logit is strictly greater than that of the background
logit, and 255 otherwise, in particular on ties such as the logits `[0, 0]`; for
an `expf` that is monotone and never negative the decision is 0 only when the
foreground logit is strictly greater than the background logit. -/
theorem meet_decoding (expf : FP → FP) (tmp : List FP) (out : List Nat) (total n : Nat)
    (hn : n < total) (hlen : n < out.length) :
    (decode expf modeltype_t.GoogleMeetSegmentation tmp total out).getD n 0 =
      blend (meet_val expf tmp n) (out.getD n 0) ∧
    (meet_val expf tmp n = 0 ↔
      FP.lt
        (FP.div FP.binary32 (expf (tmp.getD (2 * n) FP.nan))
          (FP.add FP.binary32 (expf (tmp.getD (2 * n) FP.nan))
            (expf (tmp.getD (2 * n + 1) FP.nan))))
        (FP.div FP.binary32 (expf (tmp.getD (2 * n + 1) FP.nan))
          (FP.add FP.binary32 (expf (tmp.getD (2 * n) FP.nan))
            (expf (tmp.getD (2 * n + 1) FP.nan)))) = true) ∧
    (meet_val expf tmp n ≠ 0 → meet_val expf tmp n = 255) ∧
    (tmp.getD (2 * n) FP.nan = tmp.getD (2 * n + 1) FP.nan → meet_val expf tmp n = 255) ∧
    meet_decision expf (FP.fin 0) (FP.fin 0) = 255 ∧
    ((∀ a b, FP.lt (expf a) (expf b) = true → FP.lt a b = true) →
      (∀ a, FP.lt (expf a) (FP.fin 0) = false) →
      meet_val expf tmp n = 0 →
      FP.lt (tmp.getD (2 * n) FP.nan) (tmp.getD (2 * n + 1) FP.nan) = true) := by
  have hiff : ∀ l0 l1, meet_decision expf l0 l1 = 0 ↔
      FP.lt (FP.div FP.binary32 (expf l0) (FP.add FP.binary32 (expf l0) (expf l1)))
        (FP.div FP.binary32 (expf l1) (FP.add FP.binary32 (expf l0) (expf l1))) = true := by
    intro l0 l1
    unfold meet_decision
    split_ifs with hc
    · simp [hc]
    · simp [hc]
  have htie : ∀ l, meet_decision expf l l = 255 := by
    intro l
    unfold meet_decision
    rw [FP.lt_irrefl]
    rfl
  refine ⟨writeLoop_getD_lt _ total out n hn hlen, hiff _ _, ?_, ?_, htie _, ?_⟩
  · intro h
    unfold meet_val meet_decision at h ⊢
    split_ifs at h ⊢ with hc
    · exact absurd rfl h
    · rfl
  · intro heq
    unfold meet_val
    rw [heq]
    exact htie _
  · intro hmono hnonneg h
    have h2 := (hiff _ _).mp h
    apply hmono
    by_contra hcon
    have hcon' : FP.lt (expf (tmp.getD (2 * n) FP.nan))
        (expf (tmp.getD (2 * n + 1) FP.nan)) = false := by simpa using hcon
    have := softmax_not_lt FP.binary32 (by norm_num [FP.binary32]) _ _
      (hnonneg _) (hnonneg _) hcon'
    rw [this] at h2
    exact Bool.false_ne_true h2

theorem meet_decoding_witness :
    (0 < 1 ∧ 0 < [7].length) ∧
    ((∀ a b, FP.lt (expf_step a) (expf_step b) = true → FP.lt a b = true) ∧
      (∀ a, FP.lt (expf_step a) (FP.fin 0) = false)) ∧
    meet_val expf_step [FP.fin 0, FP.fin 0] 0 = 255 ∧
    (decode expf_step modeltype_t.GoogleMeetSegmentation [FP.fin 0, FP.fin 0] 1 [7]).getD 0 0 =
      blend 255 7 ∧
    (meet_val expf_step [FP.fin 0, FP.fin 0] 0 = 0 →
      FP.lt ([FP.fin 0, FP.fin 0].getD (2 * 0) FP.nan)
        ([FP.fin 0, FP.fin 0].getD (2 * 0 + 1) FP.nan) = true) := by
  have h := meet_decoding expf_step [FP.fin 0, FP.fin 0] [7] 1 0 (by decide) (by decide)
  have h0 : meet_val expf_step [FP.fin 0, FP.fin 0] 0 = 255 := h.2.2.2.1 rfl
  refine ⟨⟨by decide, by decide⟩, ⟨expf_step_mono, expf_step_nonneg⟩, h0, ?_,
    h.2.2.2.2.2 expf_step_mono expf_step_nonneg⟩
  rw [h.1, h0]
  rfl

/-! ### C4: temporal blend -/

/-- C4: for every prior byte `b` and decision `d ∈ {0, 255}` three applications of
the byte-write rule give exactly `d`, `d` is a fixed point of the rule, and some
prior byte needs the third application; hence three passes of the write loop
with unchanged decisions bring every pixel of the low-res mask to its decision,
and a fourth pass changes nothing. -/
theorem blend_stabilises :
    (∀ b d : Nat, b < 256 → (d = 0 ∨ d = 255) →
      blend d (blend d (blend d b)) = d ∧ blend d d = d) ∧
    (∀ d : Nat, (d = 0 ∨ d = 255) → ∃ b : Nat, b < 256 ∧ blend d (blend d b) ≠ d) ∧
    (∀ (val : Nat → Nat) (total : Nat) (out : List Nat) (n : Nat),
      n < total → n < out.length → out.getD n 0 < 256 → (val n = 0 ∨ val n = 255) →
      (writeLoop val total (writeLoop val total (writeLoop val total out))).getD n 0 = val n ∧
      (writeLoop val total
        (writeLoop val total (writeLoop val total (writeLoop val total out)))).getD n 0 =
        val n) := by
  refine ⟨blend_three, ?_, writeLoop_three⟩
  intro d hd
  rcases hd with rfl | rfl
  · exact ⟨255, by decide, by decide⟩
  · exact ⟨0, by decide, by decide⟩

theorem blend_stabilises_witness :
    (37 < 256 ∧ (255 = 0 ∨ 255 = 255)) ∧
      (blend 255 (blend 255 (blend 255 37)) = 255 ∧ blend 255 255 = 255) :=
  ⟨⟨by decide, Or.inr rfl⟩, blend_stabilises.1 37 255 (by decide) (Or.inr rfl)⟩

/-! ### C5: classification by file name -/

/-- C5: `get_modeltype` classifies by case-sensitive substring, the first match
winning in the order "body-pix", "deeplab", "segm_", "selfie", and yields
`Unknown` when none occurs; it is a total function. -/
theorem get_modeltype_first_match (modelname : String) :
    get_modeltype modelname =
      if "body-pix".toList <:+: modelname.toList then modeltype_t.BodyPix
      else if "deeplab".toList <:+: modelname.toList then modeltype_t.DeepLab
      else if "segm_".toList <:+: modelname.toList then modeltype_t.GoogleMeetSegmentation
      else if "selfie".toList <:+: modelname.toList then modeltype_t.MLKitSelfie
      else modeltype_t.Unknown := by
  have e : ∀ n : String, (strstr modelname.toList n.toList).isSome = true ↔
      n.toList <:+: modelname.toList := fun n => strstr_isSome_iff _ _
  unfold get_modeltype
  by_cases h1 : "body-pix".toList <:+: modelname.toList
  · rw [if_pos ((e _).mpr h1), if_pos h1]
  · rw [if_neg (fun h => h1 ((e _).mp h)), if_neg h1]
    by_cases h2 : "deeplab".toList <:+: modelname.toList
    · rw [if_pos ((e _).mpr h2), if_pos h2]
    · rw [if_neg (fun h => h2 ((e _).mp h)), if_neg h2]
      by_cases h3 : "segm_".toList <:+: modelname.toList
      · rw [if_pos ((e _).mpr h3), if_pos h3]
      · rw [if_neg (fun h => h3 ((e _).mp h)), if_neg h3]
        by_cases h4 : "selfie".toList <:+: modelname.toList
        · rw [if_pos ((e _).mpr h4), if_pos h4]
        · rw [if_neg (fun h => h4 ((e _).mp h)), if_neg h4]

/-! ### C6: initialisation with an unrecognized model -/

/-- C6, as amended: for every model file name that `get_modeltype` classifies as
`Unknown` and whose file loads, `init_tensorflow` returns 0, not the 1 it returns
once a session is built; it records the loaded model, the family `Unknown` and
its normalization in a context without interpreter, and leaves the input and
output views, the ROI and the mask buffers as the preceding tear-down left
them, so that a following `calc_mask` does not return on that session. -/
theorem init_unknown_returns_zero (env : Env) (g : List Nat) (info : calcinfo_t)
    (model : Model) (hu : get_modeltype info.modelname = modeltype_t.Unknown)
    (hb : env.BuildFromFile info.modelname = some model) :
    init_tensorflow env g info = Except.ok (0,
      { (if info.backscrub_ctx.isSome then drop_tensorflow info else info) with
        backscrub_ctx := some ⟨some model, none, modeltype_t.Unknown,
          get_normalization modeltype_t.Unknown⟩ }) ∧
    (∀ (g' : List Nat) (info' : calcinfo_t) (r : ℤ) (s : calcinfo_t),
      get_modeltype info'.modelname ≠ modeltype_t.Unknown →
      init_tensorflow env g' info' = Except.ok (r, s) →
      r = 1 ∧ ∃ m i, s.backscrub_ctx = some ⟨some m, some i, get_modeltype info'.modelname,
        get_normalization (get_modeltype info'.modelname)⟩) ∧
    calc_mask env
      { (if info.backscrub_ctx.isSome then drop_tensorflow info else info) with
        backscrub_ctx := some ⟨some model, none, modeltype_t.Unknown,
          get_normalization modeltype_t.Unknown⟩ } =
      Except.error Fault.nullInterpreter :=
  ⟨init_tensorflow_unknown env g info model hu hb, fun g' info' r s hr h =>
    ⟨(init_tensorflow_recognized env g' info' r s hr h).1,
     (init_tensorflow_recognized env g' info' r s hr h).2.1⟩,
    calc_mask_no_interpreter env _ _ rfl rfl⟩

theorem init_unknown_returns_zero_witness :
    (get_modeltype (sample_info "mymodel.tflite").modelname = modeltype_t.Unknown ∧
      sample_env.BuildFromFile (sample_info "mymodel.tflite").modelname =
        some ⟨some sample_interpreter⟩) ∧
    init_tensorflow sample_env [] (sample_info "mymodel.tflite") = Except.ok (0,
      { sample_info "mymodel.tflite" with
        backscrub_ctx := some ⟨some ⟨some sample_interpreter⟩, none, modeltype_t.Unknown,
          get_normalization modeltype_t.Unknown⟩ }) :=
  ⟨⟨get_modeltype_sample, rfl⟩,
    (init_unknown_returns_zero sample_env [] (sample_info "mymodel.tflite")
      ⟨some sample_interpreter⟩ get_modeltype_sample rfl).1⟩

/-- C6 as stated fails: for an unrecognized model whose file loads,
`init_tensorflow` does not return 1, and it does not build an interpreter. -/
theorem init_unknown_not_success :
    (¬ ∀ (env : Env) (g : List Nat) (info : calcinfo_t),
      get_modeltype info.modelname = modeltype_t.Unknown →
      (env.BuildFromFile info.modelname).isSome = true →
      ∃ s : calcinfo_t, init_tensorflow env g info = Except.ok (1, s)) ∧
    (¬ ∀ (env : Env) (g : List Nat) (info : calcinfo_t),
      get_modeltype info.modelname = modeltype_t.Unknown →
      (env.BuildFromFile info.modelname).isSome = true →
      ∃ (r : ℤ) (s : calcinfo_t) (c : backscrub_ctx_t) (i : Interpreter),
        init_tensorflow env g info = Except.ok (r, s) ∧ s.backscrub_ctx = some c ∧
        c.interpreter = some i) := by
  have h0 := init_tensorflow_unknown sample_env [] (sample_info "mymodel.tflite")
    ⟨some sample_interpreter⟩ get_modeltype_sample rfl
  constructor
  · intro hall
    obtain ⟨s, h⟩ := hall sample_env [] (sample_info "mymodel.tflite") get_modeltype_sample rfl
    rw [h0] at h
    injection h with h
    injection h with h1 h2
    exact absurd h1 (by decide)
  · intro hall
    obtain ⟨r, s, c, i, h, hc, hi⟩ :=
      hall sample_env [] (sample_info "mymodel.tflite") get_modeltype_sample rfl
    rw [h0] at h
    injection h with h
    injection h with h1 h2
    rw [← h2] at hc
    injection hc with hc
    rw [← hc] at hi
    cases hi

/-! ### C7: the mask with an unrecognized model -/

/-- C7, as amended: with an `Unknown` model family the decoder writes nothing
into the low-res working mask (the switch of `calc_mask` leaves it as it was,
and so does every call of `calc_mask` that returns); `init_tensorflow` returns 0
for such a model without allocating a Persistent Mask Buffer: the mask is the
one the preceding tear-down left, the empty matrix when the state was fresh;
and `calc_mask` on the session it leaves does not return (there is no
interpreter to invoke), so no call writes the Persistent Mask Buffer. -/
theorem unknown_never_decodes (env : Env) (g : List Nat) (info : calcinfo_t)
    (model : Model) (hu : get_modeltype info.modelname = modeltype_t.Unknown)
    (hb : env.BuildFromFile info.modelname = some model) :
    (∀ (expf : FP → FP) (tmp : List FP) (total : Nat) (out : List Nat),
      decode expf modeltype_t.Unknown tmp total out = out) ∧
    (∀ (info' : calcinfo_t) (c : backscrub_ctx_t) (r : ℤ) (s : calcinfo_t),
      info'.backscrub_ctx = some c → c.modeltype = modeltype_t.Unknown →
      calc_mask env info' = Except.ok (r, s) → s.ofinal = info'.ofinal) ∧
    ∃ s : calcinfo_t, init_tensorflow env g info = Except.ok (0, s) ∧
      s.mask = (if info.backscrub_ctx.isSome then drop_tensorflow info else info).mask ∧
      (IsFresh info → s.mask = Mat.empty) ∧
      calc_mask env s = Except.error Fault.nullInterpreter := by
  refine ⟨fun _ _ _ _ => rfl, fun info' c r s hc hm h =>
    calc_mask_unknown_ofinal env info' c r s hc hm h,
    _, init_tensorflow_unknown env g info model hu hb, rfl, ?_, ?_⟩
  · intro hf
    obtain ⟨h1, _, _, h4, _⟩ := hf
    show (if info.backscrub_ctx.isSome then drop_tensorflow info else info).mask = Mat.empty
    rw [h1]
    exact h4
  · exact calc_mask_no_interpreter env _ _ rfl rfl

theorem unknown_never_decodes_witness :
    (get_modeltype (sample_info "mymodel.tflite").modelname = modeltype_t.Unknown ∧
      sample_env.BuildFromFile (sample_info "mymodel.tflite").modelname =
        some ⟨some sample_interpreter⟩) ∧
    ∃ s : calcinfo_t,
      init_tensorflow sample_env [] (sample_info "mymodel.tflite") = Except.ok (0, s) ∧
      s.mask = Mat.empty ∧
      calc_mask sample_env s = Except.error Fault.nullInterpreter := by
  obtain ⟨_, _, s, h1, h2, _, h4⟩ :=
    unknown_never_decodes sample_env [] (sample_info "mymodel.tflite")
      ⟨some sample_interpreter⟩ get_modeltype_sample rfl
  exact ⟨⟨get_modeltype_sample, rfl⟩, s, h1, h2, h4⟩

/-- C7 as stated fails: after `init_tensorflow` with an `Unknown` model on a fresh
state the Persistent Mask Buffer is not the all-255 buffer of the frame, and
`calc_mask` does not return at all on that session. -/
theorem unknown_mask_not_kept :
    (¬ ∀ (env : Env) (g : List Nat) (info : calcinfo_t) (r : ℤ) (s : calcinfo_t),
      get_modeltype info.modelname = modeltype_t.Unknown →
      init_tensorflow env g info = Except.ok (r, s) →
      s.mask =
        ⟨info.height, info.width, 1, List.replicate (info.height * info.width) 255, true⟩) ∧
    (¬ ∀ (env : Env) (g : List Nat) (info : calcinfo_t) (r : ℤ) (s : calcinfo_t),
      get_modeltype info.modelname = modeltype_t.Unknown →
      init_tensorflow env g info = Except.ok (r, s) →
      ∃ (r' : ℤ) (s' : calcinfo_t), calc_mask env s = Except.ok (r', s')) := by
  have h := init_tensorflow_unknown sample_env [] (sample_info "mymodel.tflite")
    ⟨some sample_interpreter⟩ get_modeltype_sample rfl
  constructor
  · intro hall
    have hm := hall sample_env [] (sample_info "mymodel.tflite") 0 _ get_modeltype_sample h
    have hrows := congrArg Mat.rows hm
    exact absurd hrows (by decide)
  · intro hall
    obtain ⟨r', s', hs'⟩ :=
      hall sample_env [] (sample_info "mymodel.tflite") 0 _ get_modeltype_sample h
    rw [calc_mask_no_interpreter sample_env _ _ rfl rfl] at hs'
    cases hs'

/-! ### C8: normalization -/

/-- C8: `get_normalization` is a total function of the model family: for DeepLab
the scaling is the `float` nearest to 1/127.5 and the offset is -1; for every
other family the scaling is the `float` nearest to 1/255 and the offset is 0. -/
theorem get_normalization_table :
    get_normalization modeltype_t.DeepLab =
      { scaling := FP.round FP.binary32 (1 / 127.5), offset := FP.fin (-1) } ∧
    (∀ t : modeltype_t, t ≠ modeltype_t.DeepLab →
      get_normalization t =
        { scaling := FP.round FP.binary32 (1 / 255), offset := FP.fin 0 }) ∧
    FP.round FP.binary32 (1 / 127.5) = FP.fin (8421505 / 2 ^ 30) ∧
    FP.round FP.binary32 (1 / 255) = FP.fin (8421505 / 2 ^ 31) := by
  refine ⟨?_, ?_, round32_scaling_deeplab, round32_scaling_default⟩
  · simp only [get_normalization]
    rw [scaling_deeplab_eq, ofInt32_neg_one, round32_scaling_deeplab]
  · intro t ht
    cases t <;> first
      | exact absurd rfl ht
      | (simp only [get_normalization]
         rw [scaling_default_eq, ofInt32_zero, round32_scaling_default])

/-! ### C9: ROI geometry -/

/-- C9, as amended: the ROI has top 0, the height of the frame, width
`trunc(H/ratio)` and left `trunc((W - H/ratio)/2)` in `float` arithmetic, and the
upsample target of the compositor is its width and height when the frame has `H`
rows; for a frame width below 2^24 on which `0 < H/ratio ≤ W`, the ROI lies inside
the `W × H` frame and its left and right margins differ by at most 2 pixels. -/
theorem roi_geometry :
    (∀ (W H : ℕ) (cols rows : ℤ) (r : Rect),
      make_roidim W H (input_ratio cols rows) = Except.ok r →
      r.y = 0 ∧ r.height = (H : ℤ) ∧
      FP.toInt? (FP.div FP.binary32 (FP.ofInt FP.binary32 (H : ℤ)) (input_ratio cols rows)) =
        some r.width ∧
      FP.toInt? (FP.div FP.binary32
        (FP.sub FP.binary32 (FP.ofInt FP.binary32 (W : ℤ))
          (FP.div FP.binary32 (FP.ofInt FP.binary32 (H : ℤ)) (input_ratio cols rows)))
        (FP.ofInt FP.binary32 2)) = some r.x ∧
      upsample_size (H : ℤ) (input_ratio cols rows) = Except.ok ⟨r.width, r.height⟩) ∧
    (∀ (W H : ℕ) (cols rows : ℤ) (hv : ℚ), W < 2 ^ 24 →
      FP.div FP.binary32 (FP.ofInt FP.binary32 (H : ℤ)) (input_ratio cols rows) = FP.fin hv →
      0 < hv → hv ≤ (W : ℚ) →
      ∃ r : Rect, make_roidim W H (input_ratio cols rows) = Except.ok r ∧
        (0 ≤ r.x ∧ 0 ≤ r.width ∧ r.x + r.width ≤ (W : ℤ) ∧
          0 ≤ r.y ∧ r.y + r.height ≤ (H : ℤ)) ∧
        |r.x - ((W : ℤ) - (r.x + r.width))| ≤ 2) := by
  refine ⟨fun W H cols rows r h => make_roidim_fields W H _ r h, ?_⟩
  intro W H cols rows hv hW hh hpos hle
  obtain ⟨x, hx, hx0, hx1, hx2⟩ := make_roidim_of_fin W H _ hv hW hh hpos hle
  have hj0 : (0 : ℤ) ≤ ⌊hv⌋ := Int.floor_nonneg.mpr hpos.le
  refine ⟨_, hx, ⟨hx0, hj0, ?_, le_refl _, ?_⟩, ?_⟩
  · show x + ⌊hv⌋ ≤ (W : ℤ)
    omega
  · show (0 : ℤ) + (H : ℤ) ≤ (H : ℤ)
    omega
  · show |x - ((W : ℤ) - (x + ⌊hv⌋))| ≤ 2
    rw [abs_le]
    constructor <;> omega

theorem roi_geometry_witness :
    ((640 : ℕ) < 2 ^ 24 ∧
      FP.div FP.binary32 (FP.ofInt FP.binary32 ((480 : ℕ) : ℤ)) (input_ratio 257 257) =
        FP.fin 480 ∧ (0 : ℚ) < 480 ∧ (480 : ℚ) ≤ ((640 : ℕ) : ℚ)) ∧
    ∃ r : Rect, make_roidim 640 480 (input_ratio 257 257) = Except.ok r ∧
      (0 ≤ r.x ∧ 0 ≤ r.width ∧ r.x + r.width ≤ ((640 : ℕ) : ℤ) ∧
        0 ≤ r.y ∧ r.y + r.height ≤ ((480 : ℕ) : ℤ)) ∧
      |r.x - (((640 : ℕ) : ℤ) - (r.x + r.width))| ≤ 2 := by
  have hh : FP.div FP.binary32 (FP.ofInt FP.binary32 ((480 : ℕ) : ℤ)) (input_ratio 257 257) =
      FP.fin 480 := by
    rw [input_ratio_square]
    have := div32_ofInt_one 480 (by norm_num) (by norm_num)
    simpa using this
  exact ⟨⟨by norm_num, hh, by norm_num, by norm_num⟩,
    roi_geometry.2 640 480 257 257 480 (by norm_num) hh (by norm_num) (by norm_num)⟩

/-- C9 as stated fails: without a bound on the frame width, a ROI with
`0 < H/ratio ≤ W` need not have margins that differ by at most 2 pixels
(`W = 134217733`, `H = 1`, a 257 × 257 network input: the margins are 67108864
and 67108868). -/
theorem roi_geometry_unbounded_fails :
    ¬ (∀ (W H : ℕ) (cols rows : ℤ) (hv : ℚ),
      FP.div FP.binary32 (FP.ofInt FP.binary32 (H : ℤ)) (input_ratio cols rows) = FP.fin hv →
      0 < hv → hv ≤ (W : ℚ) →
      ∃ r : Rect, make_roidim W H (input_ratio cols rows) = Except.ok r ∧
        (0 ≤ r.x ∧ 0 ≤ r.width ∧ r.x + r.width ≤ (W : ℤ) ∧
          0 ≤ r.y ∧ r.y + r.height ≤ (H : ℤ)) ∧
        |r.x - ((W : ℤ) - (r.x + r.width))| ≤ 2) := by
  intro hall
  have hh : FP.div FP.binary32 (FP.ofInt FP.binary32 ((1 : ℕ) : ℤ)) (input_ratio 257 257) =
      FP.fin 1 := by
    rw [input_ratio_square]
    have := div32_ofInt_one 1 (by norm_num) (by norm_num)
    simpa using this
  obtain ⟨r, hr, _, hm⟩ := hall 134217733 1 257 257 1 hh (by norm_num) (by norm_num)
  rw [make_roidim_wide] at hr
  have hr' : r = ⟨67108864, 0, 1, 1⟩ := by
    injection hr with hr
    exact hr.symm
  subst hr'
  rw [abs_le] at hm
  have := hm.1
  norm_num at this

/-! ### C10: life cycle -/

/-- C10: `drop_tensorflow` applied twice gives the state it gives applied once,
with no context, and never fails; `init_tensorflow` applied twice in a row to
a fresh state gives the return value and the session state of a single
`init_tensorflow` (whatever the indeterminate contents of the freshly allocated
low-res working mask, which alone may differ); when it returns for a recognized
model it returns 1 with the model family, its normalization, the ROI and the
all-255 mask in place. -/
theorem lifecycle_idempotent :
    (∀ info : calcinfo_t,
      drop_tensorflow (drop_tensorflow info) = drop_tensorflow info ∧
      (drop_tensorflow info).backscrub_ctx = none) ∧
    (∀ (env : Env) (g1 g2 : List Nat) (info : calcinfo_t), IsFresh info →
      (init_tensorflow env g1 info).bind (fun p => init_tensorflow env g2 p.2) =
        init_tensorflow env g2 info) ∧
    (∀ (env : Env) (g1 g2 g3 : List Nat) (info : calcinfo_t), IsFresh info →
      Except.map (fun p => (p.1, forget_ofinal p.2))
          ((init_tensorflow env g1 info).bind (fun p => init_tensorflow env g2 p.2)) =
        Except.map (fun p => (p.1, forget_ofinal p.2)) (init_tensorflow env g3 info)) ∧
    (∀ (env : Env) (g : List Nat) (info : calcinfo_t) (r : ℤ) (s : calcinfo_t),
      get_modeltype info.modelname ≠ modeltype_t.Unknown →
      init_tensorflow env g info = Except.ok (r, s) →
      r = 1 ∧
      (∃ model interpreter, s.backscrub_ctx =
        some ⟨some model, some interpreter, get_modeltype info.modelname,
          get_normalization (get_modeltype info.modelname)⟩) ∧
      s.mask = ⟨info.height, info.width, 1, List.replicate (info.height * info.width) 255, true⟩ ∧
      s.mroi = some s.roidim ∧
      make_roidim info.width info.height s.ratio = Except.ok s.roidim) := by
  refine ⟨drop_tensorflow_idem, init_twice, ?_, ?_⟩
  · intro env g1 g2 g3 info hf
    rw [init_twice env g1 g2 info hf]
    exact init_garbage_irrelevant env g2 g3 info
  · intro env g info r s hu h
    exact init_tensorflow_recognized env g info r s hu h

theorem lifecycle_idempotent_witness :
    IsFresh (sample_info "selfie.tflite") ∧
    ∃ s : calcinfo_t,
      init_tensorflow sample_env [9, 9, 9, 9] (sample_info "selfie.tflite") =
        Except.ok (1, s) ∧
      (init_tensorflow sample_env [0, 0, 0, 0] (sample_info "selfie.tflite")).bind
          (fun p => init_tensorflow sample_env [9, 9, 9, 9] p.2) = Except.ok (1, s) := by
  obtain ⟨s, hs⟩ := sample_init_ok [9, 9, 9, 9]
  refine ⟨sample_info_fresh _, s, hs, ?_⟩
  rw [lifecycle_idempotent.2.1 sample_env [0, 0, 0, 0] [9, 9, 9, 9] _ (sample_info_fresh _)]
  exact hs

end Backscrub
